import Mathlib

/-!
Verification of the key-value access layer of the repository
(`app/db/redis_client.py` and `app/db/redis_cluster_client.py`).

The development shallowly embeds:
* the application-level value domain (`PyVal`) that the clients pass to and
  receive from the store (Python values: `None`, `bool`, `int`, `float`,
  `str`, `list`, `dict`);
* the value codec used by the clients — Python's `json.dumps` (with its
  default settings: `ensure_ascii=True`, separators `", "` / `": "`) and
  `json.loads` — as `dumps` / `loads`.  Integers are modelled exactly; a
  parsed float (a numeral with a fraction or an exponent, or one of the
  non-standard `NaN`/`Infinity`/`-Infinity` constants the Python parser
  accepts) is carried opaquely as the numeral text that denoted it — the
  model does no double arithmetic and no claim compares or re-serializes
  floats, so the denotation is never normalised.  A decoded Python string
  is a sequence of code points and may contain unpaired surrogates (from
  lone `\uXXXX` escapes, which `json.loads` accepts); such strings are
  unrepresentable in Lean's `String` and are carried as their code-point
  lists (`PyVal.codes` for values, `PyKey.codes` for mapping keys), all
  other strings as `String`;
* the two client classes, their lazily constructed connection handles, and
  an explicit store state (key/value table, lists, sets, TTL table, a
  cluster topology, and fault flags standing for transport failures), so
  that the `try/except` fail-soft paths of the Python code become explicit
  branches.
-/

namespace FlaskVue

/-- A Python string used as a mapping key: an ordinary string, or — when
the decoded code points include an unpaired surrogate, which Lean's
`String`/`Char` cannot carry — the raw code-point sequence.  The parser
yields `.codes` exactly when some code point is not a Unicode scalar
value, so two keys are equal in the model iff the Python strings they
stand for are equal. -/
inductive PyKey : Type where
  | s : String → PyKey
  | codes : List Nat → PyKey
deriving DecidableEq, Repr

/-- The key is an ordinary (scalar-valued) string. -/
def PyKey.isStr : PyKey → Bool
  | .s _ => true
  | .codes _ => false

/-- The Python value domain handled by the clients: `None`, `bool`, `int`,
`float`, `str`, `list`, `dict`.  A float is carried opaquely as the
numeral (or `NaN`/`Infinity`/`-Infinity` constant) that denoted it; the
model never computes with or normalises doubles, and no claim depends on
the identification of distinct numerals denoting the same double.  A
string whose code points include an unpaired surrogate is carried as its
code-point list (`.codes`); every other string as a `String` (`.str`). -/
inductive PyVal : Type where
  | null : PyVal
  | bool : Bool → PyVal
  | int : Int → PyVal
  | float : List Char → PyVal
  | str : String → PyVal
  | codes : List Nat → PyVal
  | list : List PyVal → PyVal
  | dict : List (PyKey × PyVal) → PyVal

namespace PyVal

/-- `isinstance(value, (dict, list))` — the test the clients use to decide
whether to run a value through `json.dumps` before writing. -/
def isStruct : PyVal → Bool
  | .list _ => true
  | .dict _ => true
  | _ => false

end PyVal

/-! ### Decimal digits (`str(int)` / the JSON number grammar) -/

/-- The character for a single decimal digit. -/
def digitChar (d : Nat) : Char := Char.ofNat (48 + d)

/-- `48 ≤ c ≤ 57`, i.e. `c` is an ASCII decimal digit. -/
def isDigitChar (c : Char) : Bool := 48 ≤ c.toNat && c.toNat ≤ 57

/-- Digit accumulator for `natChars`; the fuel argument only bounds the
number of digits (`natChars` passes `n` itself, which is always enough). -/
def natCharsAux : Nat → Nat → List Char → List Char
  | 0, _, acc => acc
  | fuel + 1, n, acc =>
    if n = 0 then acc else natCharsAux fuel (n / 10) (digitChar (n % 10) :: acc)

/-- Decimal representation of a natural number, most significant digit
first (Python's `str` on a non-negative `int`). -/
def natChars (n : Nat) : List Char :=
  if n = 0 then ['0'] else natCharsAux n n []

/-- Decimal representation of an integer (Python's `str` on an `int`). -/
def intChars (i : Int) : List Char :=
  if i < 0 then '-' :: natChars i.natAbs else natChars i.toNat

/-- Numeric value of a big-endian list of decimal digit characters. -/
def digitsToNat (ds : List Char) : Nat :=
  Nat.ofDigits 10 (ds.reverse.map (fun c => c.toNat - 48))

/-- Split off the longest prefix of decimal digits. -/
def spanDigits : List Char → List Char × List Char
  | [] => ([], [])
  | c :: r =>
    if isDigitChar c then
      let p := spanDigits r
      (c :: p.1, p.2)
    else ([], c :: r)

/-! ### Hexadecimal (the `\uXXXX` escapes of `json`) -/

/-- Lower-case hexadecimal digit character. -/
def hexDigitChar (d : Nat) : Char :=
  Char.ofNat (if d < 10 then 48 + d else 87 + d)

/-- Four-digit lower-case hexadecimal rendering (`"%04x" % n`). -/
def hex4 (n : Nat) : List Char :=
  [hexDigitChar (n / 4096 % 16), hexDigitChar (n / 256 % 16),
   hexDigitChar (n / 16 % 16), hexDigitChar (n % 16)]

/-- Value of one hexadecimal digit character (either case). -/
def hexVal (c : Char) : Option Nat :=
  if 48 ≤ c.toNat ∧ c.toNat ≤ 57 then some (c.toNat - 48)
  else if 97 ≤ c.toNat ∧ c.toNat ≤ 102 then some (c.toNat - 87)
  else if 65 ≤ c.toNat ∧ c.toNat ≤ 70 then some (c.toNat - 55)
  else none

/-- Value of a four-digit hexadecimal escape body. -/
def hex4val (a b c d : Char) : Option Nat := do
  let x ← hexVal a
  let y ← hexVal b
  let z ← hexVal c
  let w ← hexVal d
  pure (((x * 16 + y) * 16 + z) * 16 + w)

/-! ### String escaping (`json.dumps` with `ensure_ascii=True`) -/

/-- Escape one character the way `json.dumps` does by default: the short
escapes for `"`, `\` and the five named controls; printable ASCII verbatim;
everything else as `\uXXXX`, with characters beyond the basic multilingual
plane as a surrogate pair. -/
def escChar (c : Char) : List Char :=
  if c = '"' then ['\\', '"']
  else if c = '\\' then ['\\', '\\']
  else if c = Char.ofNat 8 then ['\\', 'b']
  else if c = Char.ofNat 12 then ['\\', 'f']
  else if c = Char.ofNat 10 then ['\\', 'n']
  else if c = Char.ofNat 13 then ['\\', 'r']
  else if c = Char.ofNat 9 then ['\\', 't']
  else if 32 ≤ c.toNat ∧ c.toNat ≤ 126 then [c]
  else if c.toNat < 65536 then '\\' :: 'u' :: hex4 c.toNat
  else
    let n := c.toNat - 65536
    ('\\' :: 'u' :: hex4 (55296 + n / 1024)) ++ ('\\' :: 'u' :: hex4 (56320 + n % 1024))

/-- Escape a character sequence. -/
def escStr (s : List Char) : List Char := s.flatMap escChar

/-- The serialized form of a string: quoted and escaped. -/
def dumpsStr (s : String) : List Char := '"' :: (escStr s.data ++ ['"'])

/-- `escChar` at the level of raw code points, for strings that carry an
unpaired surrogate: a surrogate code point is below `0x10000` and is
emitted as a single `\uXXXX` escape, exactly as `json.dumps` renders a
lone surrogate. -/
def escCode (n : Nat) : List Char :=
  if n = 34 then ['\\', '"']
  else if n = 92 then ['\\', '\\']
  else if n = 8 then ['\\', 'b']
  else if n = 12 then ['\\', 'f']
  else if n = 10 then ['\\', 'n']
  else if n = 13 then ['\\', 'r']
  else if n = 9 then ['\\', 't']
  else if 32 ≤ n ∧ n ≤ 126 then [Char.ofNat n]
  else if n < 65536 then '\\' :: 'u' :: hex4 n
  else
    let m := n - 65536
    ('\\' :: 'u' :: hex4 (55296 + m / 1024)) ++ ('\\' :: 'u' :: hex4 (56320 + m % 1024))

/-- Escape a code-point sequence. -/
def escCodes (cs : List Nat) : List Char := cs.flatMap escCode

/-! ### The serializer (`json.dumps`, default separators `", "` and `": "`) -/

/-- The serialized form of a mapping key. -/
def dumpsKey : PyKey → List Char
  | .s k => dumpsStr k
  | .codes cs => '"' :: (escCodes cs ++ ['"'])

mutual

/-- Character-level `json.dumps` of one value. -/
def dumpsV : PyVal → List Char
  | .null => "null".data
  | .bool true => "true".data
  | .bool false => "false".data
  | .int i => intChars i
  | .float lit => lit
  | .str s => dumpsStr s
  | .codes cs => '"' :: (escCodes cs ++ ['"'])
  | .list xs => '[' :: (dumpsArr xs ++ [']'])
  | .dict kvs => '{' :: (dumpsObj kvs ++ ['}'])

/-- Array elements joined by `", "`. -/
def dumpsArr : List PyVal → List Char
  | [] => []
  | [x] => dumpsV x
  | x :: y :: t => dumpsV x ++ (',' :: ' ' :: dumpsArr (y :: t))

/-- Object entries `"key": value` joined by `", "`. -/
def dumpsObj : List (PyKey × PyVal) → List Char
  | [] => []
  | [(k, v)] => dumpsKey k ++ (':' :: ' ' :: dumpsV v)
  | (k, v) :: e :: t =>
    dumpsKey k ++ (':' :: ' ' :: dumpsV v) ++ (',' :: ' ' :: dumpsObj (e :: t))

end

/-- `json.dumps` on the embedded value domain. -/
def dumps (v : PyVal) : String := String.mk (dumpsV v)

/-! ### The parser (`json.loads`) -/

/-- Drop the JSON whitespace characters space, tab, newline, carriage
return. -/
def skipWs : List Char → List Char
  | [] => []
  | c :: r =>
    if c = ' ' ∨ c = Char.ofNat 9 ∨ c = Char.ofNat 10 ∨ c = Char.ofNat 13 then skipWs r
    else c :: r

/-- Prepend a decoded code point to a parsed string-body result. -/
def consRes (c : Nat) : Option (List Nat × List Char) → Option (List Nat × List Char)
  | some (s, r) => some (c :: s, r)
  | none => none

/-- Decode one `\uXXXX` escape body (the input starts at the first hex
digit), as Python's `scanstring` does: a high surrogate immediately
followed by a `\uXXXX` low surrogate is combined into one astral code
point; otherwise the decoded code point — including a lone surrogate,
which Python keeps in the string — is taken as is. -/
def unescapeU : List Char → Option (Nat × List Char)
  | h1 :: h2 :: h3 :: h4 :: r2 =>
    match hex4val h1 h2 h3 h4 with
    | none => none
    | some n =>
      if 55296 ≤ n ∧ n ≤ 56319 then
        match r2 with
        | b1 :: b2 :: g1 :: g2 :: g3 :: g4 :: r3 =>
          if b1 = '\\' ∧ b2 = 'u' then
            match hex4val g1 g2 g3 g4 with
            | none => some (n, r2)
            | some m =>
              if 56320 ≤ m ∧ m ≤ 57343 then
                some (65536 + (n - 55296) * 1024 + (m - 56320), r3)
              else some (n, r2)
          else some (n, r2)
        | _ => some (n, r2)
      else some (n, r2)
  | _ => none

/-- Decode one backslash escape (the input starts right after the
backslash): the short escapes, or `\uXXXX` via `unescapeU`; any other
escape character raises (`Invalid \escape`). -/
def unescapeStep : List Char → Option (Nat × List Char)
  | [] => none
  | e :: r =>
    if e = '"' then some (34, r)
    else if e = '\\' then some (92, r)
    else if e = '/' then some (47, r)
    else if e = 'b' then some (8, r)
    else if e = 'f' then some (12, r)
    else if e = 'n' then some (10, r)
    else if e = 'r' then some (13, r)
    else if e = 't' then some (9, r)
    else if e = 'u' then unescapeU r
    else none

/-- Body of a JSON string after the opening quote, up to and past the
closing quote, decoded to code points (Python's `scanstring` with
`strict=True`: raw control characters are rejected).  The fuel argument
only bounds the iteration (one unit per decoded code point); callers pass
`length + 1`, which is always enough. -/
def parseStrBody : Nat → List Char → Option (List Nat × List Char)
  | 0, _ => none
  | fuel + 1, cs =>
    match cs with
    | [] => none
    | c :: r =>
      if c = '"' then some ([], r)
      else if c = '\\' then
        match unescapeStep r with
        | none => none
        | some (ch, r2) => consRes ch (parseStrBody fuel r2)
      else if c.toNat < 32 then none
      else consRes c.toNat (parseStrBody fuel r)

/-- Is the code point a Unicode scalar value (representable as a
`Char`)? -/
def codeValid (n : Nat) : Bool :=
  decide (n < 55296) || (decide (57343 < n) && decide (n < 1114112))

/-- The `PyVal` a decoded string denotes: an ordinary `String` when every
code point is a scalar value, the raw code-point list otherwise. -/
def strVal (cs : List Nat) : PyVal :=
  if cs.all codeValid then .str (String.mk (cs.map Char.ofNat)) else .codes cs

/-- The `PyKey` a decoded object key denotes. -/
def keyVal (cs : List Nat) : PyKey :=
  if cs.all codeValid then .s (String.mk (cs.map Char.ofNat)) else .codes cs

/-- The fraction group `(\.\d+)?` of the Python scanner's number regex:
the consumed characters (maximal, or `[]` when the group does not match)
and the remainder. -/
def fracPart (cs : List Char) : List Char × List Char :=
  match cs with
  | [] => ([], [])
  | c :: r =>
    if c = '.' then
      match r with
      | [] => ([], cs)
      | d :: _ =>
        if isDigitChar d then
          let q := spanDigits r
          ('.' :: q.1, q.2)
        else ([], cs)
    else ([], cs)

/-- The exponent group `([eE][-+]?\d+)?` of the Python scanner's number
regex: the consumed characters (maximal, or `[]` when the group does not
match) and the remainder. -/
def expPart (cs : List Char) : List Char × List Char :=
  match cs with
  | [] => ([], [])
  | c :: r =>
    if c = 'e' ∨ c = 'E' then
      match r with
      | [] => ([], cs)
      | s :: r2 =>
        if s = '+' ∨ s = '-' then
          match r2 with
          | [] => ([], cs)
          | d :: _ =>
            if isDigitChar d then
              let q := spanDigits r2
              (c :: s :: q.1, q.2)
            else ([], cs)
        else if isDigitChar s then
          let q := spanDigits r
          (c :: q.1, q.2)
        else ([], cs)
    else ([], cs)

/-- A JSON number at the head of the input, per the Python scanner's regex
`(-?(0|[1-9]\d*))(\.\d+)?([eE][-+]?\d+)?`: an integer when neither the
fraction nor the exponent group matches, otherwise a float carried as the
matched numeral. -/
def parseNum (cs : List Char) : Option (PyVal × List Char) :=
  let p := match cs with
    | c :: r => if c = '-' then (true, r) else (false, cs)
    | [] => (false, cs)
  match p.2 with
  | [] => none
  | c :: r =>
    if isDigitChar c then
      let q := if c = '0' then ([c], r) else spanDigits p.2
      let fr := fracPart q.2
      let ex := expPart fr.2
      if fr.1 = [] ∧ ex.1 = [] then
        some (.int (if p.1 then -(digitsToNat q.1 : Int) else (digitsToNat q.1 : Int)), q.2)
      else
        some (.float ((if p.1 then ['-'] else []) ++ q.1 ++ fr.1 ++ ex.1), ex.2)
    else none

/-- `cs` starts with `p`; return the remainder. -/
def stripLit (p : List Char) (cs : List Char) : Option (List Char) :=
  match p, cs with
  | [], _ => some cs
  | _ :: _, [] => none
  | a :: p2, c :: r => if c = a then stripLit p2 r else none

/-- `dict(pairs)`: insert a pair into an association list, replacing in
place on a repeated key, appending otherwise. -/
def objInsert (m : List (PyKey × PyVal)) (k : PyKey) (v : PyVal) : List (PyKey × PyVal) :=
  match m with
  | [] => [(k, v)]
  | (k2, v2) :: t => if k2 = k then (k, v) :: t else (k2, v2) :: objInsert t k v

/-- `dict(pairs)` over a parsed pair list: a later repeated key overwrites
the earlier value in place. -/
def dedupPairs (ps : List (PyKey × PyVal)) : List (PyKey × PyVal) :=
  ps.foldl (fun m p => objInsert m p.1 p.2) []

mutual

/-- One JSON value at the head of the input.  The fuel argument only bounds
the nesting depth; `loads` passes `length + 1`, which is always enough. -/
def parseVal : Nat → List Char → Option (PyVal × List Char)
  | 0, _ => none
  | fuel + 1, cs =>
    match cs with
    | [] => none
    | c :: r =>
      if c = '"' then
        match parseStrBody (r.length + 1) r with
        | some (s, r2) => some (strVal s, r2)
        | none => none
      else if c = '[' then
        match skipWs r with
        | [] => none
        | d :: r2 =>
          if d = ']' then some (.list [], r2)
          else
            match parseArrElems fuel (d :: r2) with
            | some (xs, r3) => some (.list xs, r3)
            | none => none
      else if c = '{' then
        match skipWs r with
        | [] => none
        | d :: r2 =>
          if d = '}' then some (.dict [], r2)
          else
            match parseObjElems fuel (d :: r2) with
            | some (ps, r3) => some (.dict (dedupPairs ps), r3)
            | none => none
      else if c = 'n' then
        match stripLit ['n', 'u', 'l', 'l'] cs with
        | some r2 => some (.null, r2)
        | none => none
      else if c = 't' then
        match stripLit ['t', 'r', 'u', 'e'] cs with
        | some r2 => some (.bool true, r2)
        | none => none
      else if c = 'f' then
        match stripLit ['f', 'a', 'l', 's', 'e'] cs with
        | some r2 => some (.bool false, r2)
        | none => none
      else if c = 'N' then
        match stripLit "NaN".data cs with
        | some r2 => some (.float "NaN".data, r2)
        | none => none
      else if c = 'I' then
        match stripLit "Infinity".data cs with
        | some r2 => some (.float "Infinity".data, r2)
        | none => none
      else
        match parseNum cs with
        | some res => some res
        | none =>
          match stripLit "-Infinity".data cs with
          | some r2 => some (.float "-Infinity".data, r2)
          | none => none

/-- The comma-separated elements of a non-empty array, up to and past the
closing bracket. -/
def parseArrElems : Nat → List Char → Option (List PyVal × List Char)
  | 0, _ => none
  | fuel + 1, cs =>
    match parseVal fuel cs with
    | none => none
    | some (v, r) =>
      match skipWs r with
      | [] => none
      | d :: r2 =>
        if d = ']' then some ([v], r2)
        else if d = ',' then
          match parseArrElems fuel (skipWs r2) with
          | some (vs, r3) => some (v :: vs, r3)
          | none => none
        else none

/-- The comma-separated `"key": value` entries of a non-empty object,
starting at the opening quote of a key, up to and past the closing brace. -/
def parseObjElems : Nat → List Char → Option (List (PyKey × PyVal) × List Char)
  | 0, _ => none
  | fuel + 1, cs =>
    match cs with
    | [] => none
    | q :: r =>
      if q = '"' then
        match parseStrBody (r.length + 1) r with
        | none => none
        | some (k, r1) =>
          match skipWs r1 with
          | [] => none
          | d :: r2 =>
            if d = ':' then
              match parseVal fuel (skipWs r2) with
              | none => none
              | some (v, r3) =>
                match skipWs r3 with
                | [] => none
                | e :: r4 =>
                  if e = '}' then some ([(keyVal k, v)], r4)
                  else if e = ',' then
                    match parseObjElems fuel (skipWs r4) with
                    | some (ps, r5) => some ((keyVal k, v) :: ps, r5)
                    | none => none
                  else none
            else none
      else none

end

/-- `json.loads`: skip surrounding whitespace, parse one value, and demand
that the whole input is consumed (`Extra data` otherwise). -/
def loads (s : String) : Option PyVal :=
  match parseVal (s.length + 1) (skipWs s.data) with
  | some (v, rest) => if skipWs rest = [] then some v else none
  | none => none

/-- The read-side decoding of `get`: `json.loads` with the `JSONDecodeError`
fallback of returning the raw text. -/
def decode (s : String) : PyVal :=
  match loads s with
  | some v => v
  | none => .str s

/-! ### Auxiliary predicates and measures used by the codec proofs -/

/-- The continuation after a printed number may not extend it: it is empty
or starts with a character that is neither a digit nor `.`/`e`/`E`.  Every
continuation produced by `dumps` (`,`, `]`, `}`, end of input) qualifies. -/
def numOk (r : List Char) : Bool :=
  match r with
  | [] => true
  | c :: _ => !(isDigitChar c || c = '.' || c = 'e' || c = 'E')

/-- The characters a `dumps` rendering can start with. -/
def goodHead (c : Char) : Bool :=
  c = '"' || c = '[' || c = '{' || c = 'n' || c = 't' || c = 'f' || c = '-' || isDigitChar c

mutual

/-- Nesting-depth cost of parsing a value: a lower bound on the fuel
`parseVal` needs. -/
def costV : PyVal → Nat
  | .null => 1
  | .bool _ => 1
  | .int _ => 1
  | .float _ => 1
  | .str _ => 1
  | .codes _ => 1
  | .list xs => 1 + costArr xs
  | .dict kvs => 1 + costObj kvs

/-- Fuel needed by `parseArrElems`. -/
def costArr : List PyVal → Nat
  | [] => 0
  | x :: xs => 1 + max (costV x) (costArr xs)

/-- Fuel needed by `parseObjElems`. -/
def costObj : List (PyKey × PyVal) → Nat
  | [] => 0
  | (_, v) :: kvs => 1 + max (costV v) (costObj kvs)

end

/-- Key of `k` already bound in the association list? -/
def keysMem (k : PyKey) : List (PyKey × PyVal) → Bool
  | [] => false
  | (k2, _) :: t => k2 = k || keysMem k t

mutual

/-- Well-formedness of a value as the round-trip claims quantify it:
every mapping, at any depth, has pairwise distinct ordinary string keys
(a Python `dict` cannot hold a repeated key), and no float or
surrogate-carrying string occurs (see `wfObj`). -/
def wfB : PyVal → Bool
  | .null => true
  | .bool _ => true
  | .int _ => true
  | .float _ => false
  | .str _ => true
  | .codes _ => false
  | .list xs => wfArr xs
  | .dict kvs => wfObj kvs

/-- Well-formedness of the elements of a sequence. -/
def wfArr : List PyVal → Bool
  | [] => true
  | x :: xs => wfB x && wfArr xs

/-- Well-formedness of the entries of a mapping: the key is an ordinary
scalar-valued string and is not repeated below, and the value and the
remaining entries are well-formed.  (A float is not well-formed: its
opaque numeral carrier is not normalised under re-serialization, and no
claim round-trips floats; likewise a surrogate-carrying string, whose
`dumps`/`loads` round trip can legitimately differ in Python when two
lone surrogates recombine.) -/
def wfObj : List (PyKey × PyVal) → Bool
  | [] => true
  | (k, v) :: kvs => k.isStr && !keysMem k kvs && wfB v && wfObj kvs

end

/-! ## The store and the clients

The transport (the `redis` library plus the network) is modelled as an
explicit state: the string/list/set tables and the TTL table of the store,
plus fault flags.  A raised transport exception is the `Except.error` result
of a primitive; the flag `broken` makes every data command raise, which is
how the claims quantify over "a transport failure during the operation".
The client objects hold their configuration fields and the lazily created
connection handle `_client`; a connection handle is modelled by the
configuration it was built from. -/

/-- Look up a key in an association list. -/
def alistGet {α : Type} (m : List (String × α)) (k : String) : Option α :=
  match m with
  | [] => none
  | (k2, v) :: t => if k2 = k then some v else alistGet t k

/-- Bind a key in an association list (update in place or append). -/
def alistSet {α : Type} (m : List (String × α)) (k : String) (v : α) : List (String × α) :=
  match m with
  | [] => [(k, v)]
  | (k2, v2) :: t => if k2 = k then (k, v) :: t else (k2, v2) :: alistSet t k v

/-- Remove a key from an association list. -/
def alistDel {α : Type} (m : List (String × α)) (k : String) : List (String × α) :=
  match m with
  | [] => []
  | (k2, v2) :: t => if k2 = k then t else (k2, v2) :: alistDel t k

/-- The single-node store state (`redis.Redis` plus the network seen by one
client): the key/value, list, set and hash tables, the ambient subscriber
counts per channel, the TTL table, how many connection shutdowns were
requested, and whether the transport is failing (`broken = true` makes
every command raise). -/
structure Store where
  kv : List (String × String)
  lists : List (String × List String)
  sets : List (String × List String)
  hashes : List (String × List (String × String))
  subs : List (String × Nat)
  ttl : List (String × Nat)
  closeReqs : Nat
  broken : Bool
deriving DecidableEq, Repr

/-- A connection handle, identified by the configuration it was built
from. -/
structure Conn where
  host : String
  port : Nat
  db : Nat
  password : Option String
deriving DecidableEq, Repr

/-- The `RedisClient` instance state: the configuration captured by
`__init__` (explicit arguments already merged with the environment-sourced
defaults) and the lazily created handle `_client`. -/
structure RedisClient where
  host : String
  port : Nat
  db : Nat
  password : Option String
  _client : Option Conn
deriving DecidableEq, Repr

/-- The handle `redis.Redis(host=…, port=…, db=…, password=…)` builds from
a client's configuration. -/
def mkConn (c : RedisClient) : Conn :=
  { host := c.host, port := c.port, db := c.db, password := c.password }

/-- The `client` property: return the cached handle, or construct one from
the configuration and cache it.  Constructing a single-node handle does not
contact the store and cannot fail. -/
def RedisClient.client (c : RedisClient) : Conn × RedisClient :=
  match c._client with
  | some h => (h, c)
  | none => (mkConn c, { c with _client := some (mkConn c) })

/-- `LRANGE` index arithmetic: negative indices count from the tail, the
end index is inclusive and clamped, an empty range yields `[]`. -/
def lrangeSlice (xs : List String) (start stop : Int) : List String :=
  let n : Int := (xs.length : Int)
  let s := if start < 0 then max (start + n) 0 else start
  let e := min (if stop < 0 then stop + n else stop) (n - 1)
  if s > e then [] else (xs.take (e.toNat + 1)).drop s.toNat

/-- `SET key value`. -/
def Store.cmdSet (st : Store) (k w : String) : Except Unit Store :=
  if st.broken then .error () else .ok { st with kv := alistSet st.kv k w }

/-- `GET key`. -/
def Store.cmdGet (st : Store) (k : String) : Except Unit (Option String) :=
  if st.broken then .error () else .ok (alistGet st.kv k)

/-- `EXPIRE key n`. -/
def Store.cmdExpire (st : Store) (k : String) (n : Nat) : Except Unit Store :=
  if st.broken then .error () else .ok { st with ttl := alistSet st.ttl k n }

/-- `DEL key`: the number of keys removed. -/
def Store.cmdDel (st : Store) (k : String) : Except Unit (Nat × Store) :=
  if st.broken then .error ()
  else .ok (if (alistGet st.kv k).isSome then 1 else 0, { st with kv := alistDel st.kv k })

/-- `EXISTS key`. -/
def Store.cmdExists (st : Store) (k : String) : Except Unit Nat :=
  if st.broken then .error () else .ok (if (alistGet st.kv k).isSome then 1 else 0)

/-- `RPUSH name v…`: append and return the new length; a call with no
values is a command error the transport raises. -/
def Store.cmdRpush (st : Store) (k : String) (ws : List String) : Except Unit (Nat × Store) :=
  if st.broken then .error ()
  else if ws = [] then .error ()
  else
    let cur := (alistGet st.lists k).getD []
    .ok ((cur ++ ws).length, { st with lists := alistSet st.lists k (cur ++ ws) })

/-- `LRANGE name start stop`. -/
def Store.cmdLrange (st : Store) (k : String) (start stop : Int) : Except Unit (List String) :=
  if st.broken then .error () else .ok (lrangeSlice ((alistGet st.lists k).getD []) start stop)

/-- `SADD name v…`: add the values not already present, returning how many
were new; a call with no values is a command error the transport raises. -/
def Store.cmdSadd (st : Store) (k : String) (ws : List String) : Except Unit (Nat × Store) :=
  if st.broken then .error ()
  else if ws = [] then .error ()
  else
    let cur := (alistGet st.sets k).getD []
    let new := ws.foldl (fun acc w => if w ∈ acc then acc else acc ++ [w]) cur
    .ok (new.length - cur.length, { st with sets := alistSet st.sets k new })

/-- `SMEMBERS name`: the members, distinct, in the model's storage
order. -/
def Store.cmdSmembers (st : Store) (k : String) : Except Unit (List String) :=
  if st.broken then .error () else .ok ((alistGet st.sets k).getD [])

/-- `HMSET name m`: bind the fields; an empty mapping is a `DataError` the
client raises before sending. -/
def Store.cmdHmset (st : Store) (k : String) (m : List (String × String)) :
    Except Unit Store :=
  if st.broken then .error ()
  else if m = [] then .error ()
  else
    let cur := (alistGet st.hashes k).getD []
    .ok { st with hashes := alistSet st.hashes k (m.foldl (fun h p => alistSet h p.1 p.2) cur) }

/-- `HGETALL name`. -/
def Store.cmdHgetall (st : Store) (k : String) : Except Unit (List (String × String)) :=
  if st.broken then .error () else .ok ((alistGet st.hashes k).getD [])

/-- `HGET name field`. -/
def Store.cmdHget (st : Store) (k f2 : String) : Except Unit (Option String) :=
  if st.broken then .error () else .ok (alistGet ((alistGet st.hashes k).getD []) f2)

/-- `HDEL name f…`: remove the fields, returning how many were present; a
call with no fields is a command error the transport raises. -/
def Store.cmdHdel (st : Store) (k : String) (fs : List String) :
    Except Unit (Nat × Store) :=
  if st.broken then .error ()
  else if fs = [] then .error ()
  else
    let cur := (alistGet st.hashes k).getD []
    let rem := fs.foldl (fun h f2 => alistDel h f2) cur
    .ok (cur.length - rem.length, { st with hashes := alistSet st.hashes k rem })

/-- `PUBLISH channel msg`: the number of subscribers that received it. -/
def Store.cmdPublish (st : Store) (ch : String) : Except Unit Nat :=
  if st.broken then .error () else .ok ((alistGet st.subs ch).getD 0)

/-- `SUBSCRIBE channel`: succeeds unless the transport is failing. -/
def Store.cmdSubscribe (st : Store) (_ch : String) : Except Unit Unit :=
  if st.broken then .error () else .ok ()

/-- The write-side half of the value codec as the clients apply it: a
mapping or sequence goes through `json.dumps`, everything else is passed to
the transport unchanged. -/
def encodeArg (v : PyVal) : PyVal :=
  if v.isStruct then .str (dumps v) else v

/-- The transport's argument encoder (`redis` `Encoder.encode`): text is
sent as is, an integer as its decimal rendering, a float via `repr`
(carried here as its opaque numeral; no claim inspects the bytes of an
encoded float); a boolean, `None`, or an unencoded mapping/sequence
raises `DataError`, and a string holding an unpaired surrogate raises
`UnicodeEncodeError` from `str.encode` (`none` here). -/
def wire : PyVal → Option String
  | .str s => some s
  | .int i => some (String.mk (intChars i))
  | .float lit => some (String.mk lit)
  | .codes _ => none
  | .null => none
  | .bool _ => none
  | .list _ => none
  | .dict _ => none

/-- `v.startswith('{') or v.startswith('[')` — the shape heuristic of
`get_list`/`get_set`. -/
def startsStruct (s : String) : Bool :=
  match s.data with
  | [] => false
  | c :: _ => c = '{' || c = '['

/-- Elementwise decoding in `get_list`/`get_set`: an element that looks
structured is passed to `json.loads` (`none` = the raised `JSONDecodeError`),
anything else is kept verbatim. -/
def decodeElem (s : String) : Option PyVal :=
  if startsStruct s then loads s else some (.str s)

/-- `RedisClient.set`: encode, write, optionally expire; any raise is
caught and turns into `False`. -/
def RedisClient.set (c : RedisClient) (st : Store) (key : String) (value : PyVal)
    (expire : Option Nat) : Bool × RedisClient × Store :=
  let v := encodeArg value
  let p := c.client
  match wire v with
  | none => (false, p.2, st)
  | some w =>
    match st.cmdSet key w with
    | .error _ => (false, p.2, st)
    | .ok st1 =>
      match expire with
      | some n =>
        if n ≠ 0 then
          match st1.cmdExpire key n with
          | .error _ => (false, p.2, st1)
          | .ok st2 => (true, p.2, st2)
        else (true, p.2, st1)
      | none => (true, p.2, st1)

/-- `RedisClient.get`: read and decode; absent key or any raise yields
`None`. -/
def RedisClient.get (c : RedisClient) (st : Store) (key : String) :
    Option PyVal × RedisClient × Store :=
  let p := c.client
  match st.cmdGet key with
  | .error _ => (none, p.2, st)
  | .ok none => (none, p.2, st)
  | .ok (some s) => (some (decode s), p.2, st)

/-- `RedisClient.delete`. -/
def RedisClient.delete (c : RedisClient) (st : Store) (key : String) :
    Bool × RedisClient × Store :=
  let p := c.client
  match st.cmdDel key with
  | .error _ => (false, p.2, st)
  | .ok (n, st1) => (decide (n ≠ 0), p.2, st1)

/-- `RedisClient.exists`. -/
def RedisClient.existsKey (c : RedisClient) (st : Store) (key : String) :
    Bool × RedisClient × Store :=
  let p := c.client
  match st.cmdExists key with
  | .error _ => (false, p.2, st)
  | .ok n => (decide (n ≠ 0), p.2, st)

/-- `RedisClient.push_list`: run the structured values through `json.dumps`,
push, return the new length; any raise (transport failure, `DataError`,
empty argument list) yields `0`. -/
def RedisClient.push_list (c : RedisClient) (st : Store) (name : String)
    (values : List PyVal) : Nat × RedisClient × Store :=
  let p := c.client
  let vs := values.map encodeArg
  match vs.mapM wire with
  | none => (0, p.2, st)
  | some ws =>
    match st.cmdRpush name ws with
    | .error _ => (0, p.2, st)
    | .ok (len, st1) => (len, p.2, st1)

/-- `RedisClient.get_list`: read the range and decode elementwise by the
shape heuristic.  The decoding runs inside the same `try` as the transport
call, so a `JSONDecodeError` on any element is caught by the outer handler
and yields the failure default `[]`. -/
def RedisClient.get_list (c : RedisClient) (st : Store) (name : String)
    (start stop : Int) : List PyVal × RedisClient × Store :=
  let p := c.client
  match st.cmdLrange name start stop with
  | .error _ => ([], p.2, st)
  | .ok vs =>
    match vs.mapM decodeElem with
    | some ds => (ds, p.2, st)
    | none => ([], p.2, st)

/-- `RedisClient.add_to_set`: like `push_list` over `SDIFF`-free `SADD`;
returns the number of new members, `0` on any raise. -/
def RedisClient.add_to_set (c : RedisClient) (st : Store) (name : String)
    (values : List PyVal) : Nat × RedisClient × Store :=
  let p := c.client
  let vs := values.map encodeArg
  match vs.mapM wire with
  | none => (0, p.2, st)
  | some ws =>
    match st.cmdSadd name ws with
    | .error _ => (0, p.2, st)
    | .ok (n, st1) => (n, p.2, st1)

/-- `RedisClient.get_set`: read the members and decode elementwise by the
shape heuristic, building a Python set of the results.  A `JSONDecodeError`
on an element, or a `TypeError` from inserting an unhashable decoded value
(a mapping or sequence) into the set, is caught by the outer handler and
yields the failure default (empty set).  The resulting set is modelled by
the list of decoded members (all remaining members decode verbatim to
pairwise distinct text values). -/
def RedisClient.get_set (c : RedisClient) (st : Store) (name : String) :
    List PyVal × RedisClient × Store :=
  let p := c.client
  match st.cmdSmembers name with
  | .error _ => ([], p.2, st)
  | .ok vs =>
    match vs.mapM decodeElem with
    | none => ([], p.2, st)
    | some ds => if ds.any PyVal.isStruct then ([], p.2, st) else (ds, p.2, st)

/-- `RedisClient.set_hash`: `bool(hmset(name, mapping))`; each field value
goes through the transport encoder, and an empty mapping (`DataError`) or
any raise yields `False`. -/
def RedisClient.set_hash (c : RedisClient) (st : Store) (name : String)
    (mapping : List (String × PyVal)) : Bool × RedisClient × Store :=
  let p := c.client
  match mapping.mapM (fun kv => (wire kv.2).map (fun w => (kv.1, w))) with
  | none => (false, p.2, st)
  | some m =>
    match st.cmdHmset name m with
    | .error _ => (false, p.2, st)
    | .ok st1 => (true, p.2, st1)

/-- `RedisClient.get_hash`: the field/value pairs (decoded strings), `{}`
on any raise. -/
def RedisClient.get_hash (c : RedisClient) (st : Store) (name : String) :
    List (String × String) × RedisClient × Store :=
  let p := c.client
  match st.cmdHgetall name with
  | .error _ => ([], p.2, st)
  | .ok m => (m, p.2, st)

/-- `RedisClient.delete_hash`: the number of fields removed, `0` on any
raise (including the empty field list the transport rejects). -/
def RedisClient.delete_hash (c : RedisClient) (st : Store) (name : String)
    (fields : List String) : Nat × RedisClient × Store :=
  let p := c.client
  match st.cmdHdel name fields with
  | .error _ => (0, p.2, st)
  | .ok (n, st1) => (n, p.2, st1)

/-- `RedisClient.publish`: a mapping or sequence message goes through
`json.dumps`; returns the receiver count, `0` on any raise. -/
def RedisClient.publish (c : RedisClient) (st : Store) (channel : String)
    (message : PyVal) : Nat × RedisClient × Store :=
  let p := c.client
  match wire (encodeArg message) with
  | none => (0, p.2, st)
  | some _ =>
    match st.cmdPublish channel with
    | .error _ => (0, p.2, st)
    | .ok n => (n, p.2, st)

/-- `RedisClient.subscribe`: build a pubsub object (modelled by its
subscribed-channel list) and subscribe it; `None` on any raise. -/
def RedisClient.subscribe (c : RedisClient) (st : Store) (channel : String) :
    Option (List String) × RedisClient × Store :=
  let p := c.client
  match st.cmdSubscribe channel with
  | .error _ => (none, p.2, st)
  | .ok _ => (some [channel], p.2, st)

/-- `RedisClient.close`: if a handle exists, request its shutdown and null
the field; otherwise do nothing. -/
def RedisClient.close (c : RedisClient) (st : Store) : RedisClient × Store :=
  match c._client with
  | some _ => ({ c with _client := none }, { st with closeReqs := st.closeReqs + 1 })
  | none => (c, st)

/-- The store operations of the single-node client that the invariant
claims quantify over. -/
inductive SnOp : Type where
  | set (key : String) (value : PyVal) (expire : Option Nat)
  | get (key : String)
  | delete (key : String)
  | existsKey (key : String)
  | set_hash (name : String) (mapping : List (String × PyVal))
  | get_hash (name : String)
  | delete_hash (name : String) (fields : List String)
  | push_list (name : String) (values : List PyVal)
  | get_list (name : String) (start stop : Int)
  | add_to_set (name : String) (values : List PyVal)
  | get_set (name : String)
  | publish (channel : String) (message : PyVal)
  | subscribe (channel : String)

/-- Result of a single-node operation. -/
inductive SnRes : Type where
  | bool (b : Bool)
  | opt (v : Option PyVal)
  | nat (n : Nat)
  | vals (vs : List PyVal)
  | pairs (m : List (String × String))
  | sub (x : Option (List String))

/-- Dispatch a single-node operation. -/
def runOp : SnOp → RedisClient → Store → SnRes × RedisClient × Store
  | .set k v e, c, st => let r := c.set st k v e; (.bool r.1, r.2)
  | .get k, c, st => let r := c.get st k; (.opt r.1, r.2)
  | .delete k, c, st => let r := c.delete st k; (.bool r.1, r.2)
  | .existsKey k, c, st => let r := c.existsKey st k; (.bool r.1, r.2)
  | .set_hash n m, c, st => let r := c.set_hash st n m; (.bool r.1, r.2)
  | .get_hash n, c, st => let r := c.get_hash st n; (.pairs r.1, r.2)
  | .delete_hash n fs, c, st => let r := c.delete_hash st n fs; (.nat r.1, r.2)
  | .push_list n vs, c, st => let r := c.push_list st n vs; (.nat r.1, r.2)
  | .get_list n a b, c, st => let r := c.get_list st n a b; (.vals r.1, r.2)
  | .add_to_set n vs, c, st => let r := c.add_to_set st n vs; (.nat r.1, r.2)
  | .get_set n, c, st => let r := c.get_set st n; (.vals r.1, r.2)
  | .publish ch m, c, st => let r := c.publish st ch m; (.nat r.1, r.2)
  | .subscribe ch, c, st => let r := c.subscribe st ch; (.sub r.1, r.2)

/-- The handle field is null or holds a handle built from this client's own
configuration. -/
def InvSN (c : RedisClient) : Prop :=
  ∀ h, c._client = some h → h = mkConn c

/-- Two single-node client states carry the same configuration. -/
def sameConfig (a b : RedisClient) : Prop :=
  a.host = b.host ∧ a.port = b.port ∧ a.db = b.db ∧ a.password = b.password

/-! ### The cluster client -/

/-- A node descriptor as the code handles it (`Dict[str, Any]`); `[]` is
the empty descriptor `{}`. -/
abbrev NodeDesc := List (String × String)

/-- A cluster connection handle, identified by the configuration it was
built from. -/
structure CConn where
  startup_nodes : List (String × Nat)
  password : Option String
  ssl : Bool
  decode_responses : Bool
  skip_full_coverage_check : Bool
deriving DecidableEq, Repr

/-- The `RedisClusterClient` instance state. -/
structure RedisClusterClient where
  startup_nodes : List (String × Nat)
  password : Option String
  ssl : Bool
  decode_responses : Bool
  skip_full_coverage_check : Bool
  _client : Option CConn
deriving DecidableEq, Repr

/-- The handle `RedisCluster(...)` builds from a cluster client's
configuration. -/
def mkCConn (c : RedisClusterClient) : CConn :=
  { startup_nodes := c.startup_nodes, password := c.password, ssl := c.ssl,
    decode_responses := c.decode_responses,
    skip_full_coverage_check := c.skip_full_coverage_check }

/-- The cluster store state: the data tables (key/value, list, set, hash,
ambient subscriber counts, TTL), the log of `EXPIRE` commands issued (in
order), the `CLUSTER SLOTS` topology, and the fault flags: `connectable`
is whether constructing `RedisCluster(...)` succeeds, `broken` makes the
data commands raise, `slotsBroken` makes `cluster_slots()` raise. -/
structure CStore where
  kv : List (String × String)
  lists : List (String × List String)
  sets : List (String × List String)
  hashes : List (String × List (String × String))
  subs : List (String × Nat)
  ttl : List (String × Nat)
  expireLog : List (String × Nat)
  topology : List (Nat × Nat × List NodeDesc)
  connectable : Bool
  broken : Bool
  slotsBroken : Bool
  closeReqs : Nat
deriving DecidableEq, Repr

/-- The cluster `client` property: return the cached handle, or construct
one.  Construction contacts the cluster; on failure the exception is logged
and re-raised (`Except.error`), and the handle field stays unset. -/
def RedisClusterClient.client (c : RedisClusterClient) (st : CStore) :
    Except Unit (CConn × RedisClusterClient) :=
  match c._client with
  | some h => .ok (h, c)
  | none =>
    if st.connectable then .ok (mkCConn c, { c with _client := some (mkCConn c) })
    else .error ()

/-- Cluster `SET key value` (unconditional): the store replies `OK`. -/
def CStore.cmdSet (st : CStore) (k w : String) : Except Unit (Bool × CStore) :=
  if st.broken then .error ()
  else .ok (true, { st with kv := alistSet st.kv k w })

/-- Cluster `SET key value NX`: skipped (`nil` reply, here `false`) when
the key exists. -/
def CStore.cmdSetNX (st : CStore) (k w : String) : Except Unit (Bool × CStore) :=
  if st.broken then .error ()
  else if (alistGet st.kv k).isSome then .ok (false, st)
  else .ok (true, { st with kv := alistSet st.kv k w })

/-- Cluster `SET key value XX`: skipped (`nil` reply, here `false`) when
the key is absent. -/
def CStore.cmdSetXX (st : CStore) (k w : String) : Except Unit (Bool × CStore) :=
  if st.broken then .error ()
  else if (alistGet st.kv k).isSome then .ok (true, { st with kv := alistSet st.kv k w })
  else .ok (false, st)

/-- Cluster `EXPIRE key n`, recorded in the issued-command log. -/
def CStore.cmdExpire (st : CStore) (k : String) (n : Nat) : Except Unit CStore :=
  if st.broken then .error ()
  else .ok { st with ttl := alistSet st.ttl k n, expireLog := st.expireLog ++ [(k, n)] }

/-- Cluster `GET key`. -/
def CStore.cmdGet (st : CStore) (k : String) : Except Unit (Option String) :=
  if st.broken then .error () else .ok (alistGet st.kv k)

/-- Cluster `DEL k…`: remove the keys, counting the removals; a call with
no keys is a command error the transport raises. -/
def CStore.cmdDel (st : CStore) (ks : List String) : Except Unit (Nat × CStore) :=
  if st.broken then .error ()
  else if ks = [] then .error ()
  else
    let r := ks.foldl (fun acc k =>
      if (alistGet acc.2 k).isSome then (acc.1 + 1, alistDel acc.2 k) else acc)
      ((0 : Nat), st.kv)
    .ok (r.1, { st with kv := r.2 })

/-- Cluster `EXISTS k…`: how many of the named keys exist (a repeated key
counts each time, as in Redis). -/
def CStore.cmdExists (st : CStore) (ks : List String) : Except Unit Nat :=
  if st.broken then .error ()
  else if ks = [] then .error ()
  else .ok (ks.filter (fun k => (alistGet st.kv k).isSome)).length

/-- Cluster `RPUSH`. -/
def CStore.cmdRpush (st : CStore) (k : String) (ws : List String) :
    Except Unit (Nat × CStore) :=
  if st.broken then .error ()
  else if ws = [] then .error ()
  else
    let cur := (alistGet st.lists k).getD []
    .ok ((cur ++ ws).length, { st with lists := alistSet st.lists k (cur ++ ws) })

/-- Cluster `LRANGE`. -/
def CStore.cmdLrange (st : CStore) (k : String) (start stop : Int) :
    Except Unit (List String) :=
  if st.broken then .error () else .ok (lrangeSlice ((alistGet st.lists k).getD []) start stop)

/-- Cluster `SADD`. -/
def CStore.cmdSadd (st : CStore) (k : String) (ws : List String) :
    Except Unit (Nat × CStore) :=
  if st.broken then .error ()
  else if ws = [] then .error ()
  else
    let cur := (alistGet st.sets k).getD []
    let new := ws.foldl (fun acc w => if w ∈ acc then acc else acc ++ [w]) cur
    .ok (new.length - cur.length, { st with sets := alistSet st.sets k new })

/-- Cluster `SMEMBERS`. -/
def CStore.cmdSmembers (st : CStore) (k : String) : Except Unit (List String) :=
  if st.broken then .error () else .ok ((alistGet st.sets k).getD [])

/-- Cluster `HMSET`. -/
def CStore.cmdHmset (st : CStore) (k : String) (m : List (String × String)) :
    Except Unit CStore :=
  if st.broken then .error ()
  else if m = [] then .error ()
  else
    let cur := (alistGet st.hashes k).getD []
    .ok { st with hashes := alistSet st.hashes k (m.foldl (fun h p => alistSet h p.1 p.2) cur) }

/-- Cluster `HGETALL`. -/
def CStore.cmdHgetall (st : CStore) (k : String) : Except Unit (List (String × String)) :=
  if st.broken then .error () else .ok ((alistGet st.hashes k).getD [])

/-- Cluster `HGET`. -/
def CStore.cmdHget (st : CStore) (k f2 : String) : Except Unit (Option String) :=
  if st.broken then .error () else .ok (alistGet ((alistGet st.hashes k).getD []) f2)

/-- Cluster `HDEL`. -/
def CStore.cmdHdel (st : CStore) (k : String) (fs : List String) :
    Except Unit (Nat × CStore) :=
  if st.broken then .error ()
  else if fs = [] then .error ()
  else
    let cur := (alistGet st.hashes k).getD []
    let rem := fs.foldl (fun h f2 => alistDel h f2) cur
    .ok (cur.length - rem.length, { st with hashes := alistSet st.hashes k rem })

/-- Cluster `PUBLISH`. -/
def CStore.cmdPublish (st : CStore) (ch : String) : Except Unit Nat :=
  if st.broken then .error () else .ok ((alistGet st.subs ch).getD 0)

/-- Cluster `SUBSCRIBE`. -/
def CStore.cmdSubscribe (st : CStore) (_ch : String) : Except Unit Unit :=
  if st.broken then .error () else .ok ()

/-- Cluster `CLUSTER NODES`: the node descriptors of the topology. -/
def CStore.cmdClusterNodes (st : CStore) : Except Unit (List NodeDesc) :=
  if st.broken then .error () else .ok (st.topology.flatMap (fun q => q.2.2))

/-- `RedisClusterClient.set`: encode, conditionally write (`nx` checked
before `xx`), expire only when `expire` and the write's result are both
truthy, return `bool(result)`; any raise is caught and turns into
`False`. -/
def RedisClusterClient.set (c : RedisClusterClient) (st : CStore) (key : String)
    (value : PyVal) (expire : Option Nat) (nx : Bool) (xx : Bool) :
    Bool × RedisClusterClient × CStore :=
  let v := encodeArg value
  match c.client st with
  | .error _ => (false, c, st)
  | .ok (_, c') =>
    match wire v with
    | none => (false, c', st)
    | some w =>
      match (if nx then st.cmdSetNX key w else if xx then st.cmdSetXX key w
             else st.cmdSet key w) with
      | .error _ => (false, c', st)
      | .ok (result, st1) =>
        match expire with
        | some n =>
          if n ≠ 0 ∧ result then
            match st1.cmdExpire key n with
            | .error _ => (false, c', st1)
            | .ok st2 => (result, c', st2)
          else (result, c', st1)
        | none => (result, c', st1)

/-- `RedisClusterClient.get`: read and decode; absent key or any raise
(including a connection-construction failure inside the accessor) yields
`None`. -/
def RedisClusterClient.get (c : RedisClusterClient) (st : CStore) (key : String) :
    Option PyVal × RedisClusterClient × CStore :=
  match c.client st with
  | .error _ => (none, c, st)
  | .ok (_, c') =>
    match st.cmdGet key with
    | .error _ => (none, c', st)
    | .ok none => (none, c', st)
    | .ok (some s) => (some (decode s), c', st)

/-- `RedisClusterClient.delete`: the number of keys deleted, `0` on any
raise. -/
def RedisClusterClient.delete (c : RedisClusterClient) (st : CStore) (keys : List String) :
    Nat × RedisClusterClient × CStore :=
  match c.client st with
  | .error _ => (0, c, st)
  | .ok (_, c2) =>
    match st.cmdDel keys with
    | .error _ => (0, c2, st)
    | .ok (n, st1) => (n, c2, st1)

/-- `RedisClusterClient.exists`: the number of named keys that exist, `0`
on any raise. -/
def RedisClusterClient.existsKeys (c : RedisClusterClient) (st : CStore) (keys : List String) :
    Nat × RedisClusterClient × CStore :=
  match c.client st with
  | .error _ => (0, c, st)
  | .ok (_, c2) =>
    match st.cmdExists keys with
    | .error _ => (0, c2, st)
    | .ok n => (n, c2, st)

/-- `RedisClusterClient.set_hash`: `bool(hmset(name, mapping))`; `False`
on any raise (including the `DataError` of an empty mapping). -/
def RedisClusterClient.set_hash (c : RedisClusterClient) (st : CStore) (name : String)
    (mapping : List (String × PyVal)) : Bool × RedisClusterClient × CStore :=
  match c.client st with
  | .error _ => (false, c, st)
  | .ok (_, c2) =>
    match mapping.mapM (fun kv => (wire kv.2).map (fun w => (kv.1, w))) with
    | none => (false, c2, st)
    | some m =>
      match st.cmdHmset name m with
      | .error _ => (false, c2, st)
      | .ok st1 => (true, c2, st1)

/-- `RedisClusterClient.get_hash`: the field/value pairs, `{}` on any
raise. -/
def RedisClusterClient.get_hash (c : RedisClusterClient) (st : CStore) (name : String) :
    List (String × String) × RedisClusterClient × CStore :=
  match c.client st with
  | .error _ => ([], c, st)
  | .ok (_, c2) =>
    match st.cmdHgetall name with
    | .error _ => ([], c2, st)
    | .ok m => (m, c2, st)

/-- `RedisClusterClient.get_hash_field`: the field's value or `None`;
`None` on any raise. -/
def RedisClusterClient.get_hash_field (c : RedisClusterClient) (st : CStore)
    (name field : String) : Option String × RedisClusterClient × CStore :=
  match c.client st with
  | .error _ => (none, c, st)
  | .ok (_, c2) =>
    match st.cmdHget name field with
    | .error _ => (none, c2, st)
    | .ok v => (v, c2, st)

/-- `RedisClusterClient.delete_hash`: the number of fields removed, `0` on
any raise. -/
def RedisClusterClient.delete_hash (c : RedisClusterClient) (st : CStore) (name : String)
    (fields : List String) : Nat × RedisClusterClient × CStore :=
  match c.client st with
  | .error _ => (0, c, st)
  | .ok (_, c2) =>
    match st.cmdHdel name fields with
    | .error _ => (0, c2, st)
    | .ok (n, st1) => (n, c2, st1)

/-- `RedisClusterClient.push_list`: encode the structured values, push,
return the new length; `0` on any raise. -/
def RedisClusterClient.push_list (c : RedisClusterClient) (st : CStore) (name : String)
    (values : List PyVal) : Nat × RedisClusterClient × CStore :=
  match c.client st with
  | .error _ => (0, c, st)
  | .ok (_, c2) =>
    match (values.map encodeArg).mapM wire with
    | none => (0, c2, st)
    | some ws =>
      match st.cmdRpush name ws with
      | .error _ => (0, c2, st)
      | .ok (len, st1) => (len, c2, st1)

/-- `RedisClusterClient.get_list`: read the range and decode elementwise
by the shape heuristic inside the same `try`; `[]` on any raise. -/
def RedisClusterClient.get_list (c : RedisClusterClient) (st : CStore) (name : String)
    (start stop : Int) : List PyVal × RedisClusterClient × CStore :=
  match c.client st with
  | .error _ => ([], c, st)
  | .ok (_, c2) =>
    match st.cmdLrange name start stop with
    | .error _ => ([], c2, st)
    | .ok vs =>
      match vs.mapM decodeElem with
      | some ds => (ds, c2, st)
      | none => ([], c2, st)

/-- `RedisClusterClient.add_to_set`: the number of new members, `0` on any
raise. -/
def RedisClusterClient.add_to_set (c : RedisClusterClient) (st : CStore) (name : String)
    (values : List PyVal) : Nat × RedisClusterClient × CStore :=
  match c.client st with
  | .error _ => (0, c, st)
  | .ok (_, c2) =>
    match (values.map encodeArg).mapM wire with
    | none => (0, c2, st)
    | some ws =>
      match st.cmdSadd name ws with
      | .error _ => (0, c2, st)
      | .ok (n, st1) => (n, c2, st1)

/-- `RedisClusterClient.get_set`: read the members and decode elementwise
inside the same `try`, building a Python set; the failure default (empty
set) on any raise, including the `TypeError` of an unhashable decoded
member. -/
def RedisClusterClient.get_set (c : RedisClusterClient) (st : CStore) (name : String) :
    List PyVal × RedisClusterClient × CStore :=
  match c.client st with
  | .error _ => ([], c, st)
  | .ok (_, c2) =>
    match st.cmdSmembers name with
    | .error _ => ([], c2, st)
    | .ok vs =>
      match vs.mapM decodeElem with
      | none => ([], c2, st)
      | some ds => if ds.any PyVal.isStruct then ([], c2, st) else (ds, c2, st)

/-- `RedisClusterClient.publish`: a mapping or sequence message goes
through `json.dumps`; the receiver count, `0` on any raise. -/
def RedisClusterClient.publish (c : RedisClusterClient) (st : CStore) (channel : String)
    (message : PyVal) : Nat × RedisClusterClient × CStore :=
  match c.client st with
  | .error _ => (0, c, st)
  | .ok (_, c2) =>
    match wire (encodeArg message) with
    | none => (0, c2, st)
    | some _ =>
      match st.cmdPublish channel with
      | .error _ => (0, c2, st)
      | .ok n => (n, c2, st)

/-- `RedisClusterClient.subscribe`: a pubsub object subscribed to the
channel, `None` on any raise. -/
def RedisClusterClient.subscribe (c : RedisClusterClient) (st : CStore) (channel : String) :
    Option (List String) × RedisClusterClient × CStore :=
  match c.client st with
  | .error _ => (none, c, st)
  | .ok (_, c2) =>
    match st.cmdSubscribe channel with
    | .error _ => (none, c2, st)
    | .ok _ => (some [channel], c2, st)

/-- `RedisClusterClient.get_cluster_nodes`: the cluster's node
descriptors, `[]` on any raise. -/
def RedisClusterClient.get_cluster_nodes (c : RedisClusterClient) (st : CStore) :
    List NodeDesc × RedisClusterClient × CStore :=
  match c.client st with
  | .error _ => ([], c, st)
  | .ok (_, c2) =>
    match st.cmdClusterNodes with
    | .error _ => ([], c2, st)
    | .ok ns => (ns, c2, st)

/-- One round of the XMODEM CRC16 (polynomial `0x1021`). -/
def crc16Round (c : Nat) : Nat :=
  if c &&& 32768 ≠ 0 then ((c <<< 1) ^^^ 4129) % 65536 else (c <<< 1) % 65536

/-- Fold one byte into the CRC. -/
def crc16Byte (crc b : Nat) : Nat :=
  let c := (crc ^^^ ((b % 256) <<< 8)) % 65536
  crc16Round (crc16Round (crc16Round (crc16Round
    (crc16Round (crc16Round (crc16Round (crc16Round c)))))))

/-- XMODEM CRC16 of a byte sequence (`binascii.crc_hqx(data, 0)`). -/
def crc16 (bs : List Nat) : Nat := bs.foldl crc16Byte 0

/-- UTF-8 bytes of one character. -/
def charUtf8 (ch : Char) : List Nat :=
  let c := ch.toNat
  if c < 128 then [c]
  else if c < 2048 then [192 + c / 64, 128 + c % 64]
  else if c < 65536 then [224 + c / 4096, 128 + c / 64 % 64, 128 + c % 64]
  else [240 + c / 262144, 128 + c / 4096 % 64, 128 + c / 64 % 64, 128 + c % 64]

/-- The characters after the first `{`, if any. -/
def afterBrace : List Char → Option (List Char)
  | [] => none
  | c :: r => if c = '{' then some r else afterBrace r

/-- The characters before the first `}`, if any. -/
def untilClose : List Char → Option (List Char)
  | [] => none
  | c :: r =>
    if c = '}' then some []
    else match untilClose r with
      | some t => some (c :: t)
      | none => none

/-- The hash-tag rule of the cluster key hash: if the key contains `{…}`
with a non-empty tag, only the tag is hashed. -/
def keyHashChars (cs : List Char) : List Char :=
  match afterBrace cs with
  | none => cs
  | some r =>
    match untilClose r with
    | none => cs
    | some tag => if tag = [] then cs else tag

/-- The deterministic key → slot hash of the cluster client
(`RedisCluster.keyslot`): CRC16 of the hash-tag-adjusted UTF-8 bytes,
modulo 16384.  Computed locally; only the accessor can fail. -/
def keySlot (key : String) : Nat :=
  crc16 ((keyHashChars key.data).flatMap charUtf8) % 16384

/-- `RedisClusterClient.get_key_slot`: the slot, or the sentinel `-1` when
the computation (the accessor) raises. -/
def RedisClusterClient.get_key_slot (c : RedisClusterClient) (st : CStore) (key : String) :
    Int × RedisClusterClient :=
  match c.client st with
  | .error _ => (-1, c)
  | .ok (_, c') => ((keySlot key : Int), c')

/-- `RedisClusterClient.get_cluster_slots`: the slot table as freshly
reported by the store; failure default `[]`. -/
def RedisClusterClient.get_cluster_slots (c : RedisClusterClient) (st : CStore) :
    List (Nat × Nat × List NodeDesc) × RedisClusterClient :=
  match c.client st with
  | .error _ => ([], c)
  | .ok (_, c') => if st.slotsBroken then ([], c') else (st.topology, c')

/-- The linear scan of `get_node_for_key`: first range containing the slot;
its first node, or `{}` when the range's node list is empty; `{}` when no
range matches. -/
def findSlotNode (slot : Int) : List (Nat × Nat × List NodeDesc) → NodeDesc
  | [] => []
  | (s, e, ns) :: rest =>
    if (s : Int) ≤ slot ∧ slot ≤ (e : Int) then ns.headD [] else findSlotNode slot rest

/-- `RedisClusterClient.get_node_for_key`: compute the slot (`{}` on the
`-1` sentinel), fetch the slot table afresh, scan it linearly. -/
def RedisClusterClient.get_node_for_key (c : RedisClusterClient) (st : CStore) (key : String) :
    NodeDesc × RedisClusterClient :=
  let p := c.get_key_slot st key
  if p.1 = -1 then ([], p.2)
  else
    let q := p.2.get_cluster_slots st
    (findSlotNode p.1 q.1, q.2)

/-- `RedisClusterClient.close`. -/
def RedisClusterClient.close (c : RedisClusterClient) (st : CStore) :
    RedisClusterClient × CStore :=
  match c._client with
  | some _ => ({ c with _client := none }, { st with closeReqs := st.closeReqs + 1 })
  | none => (c, st)

/-- The store operations of the cluster client that the invariant claims
quantify over. -/
inductive COp : Type where
  | set (key : String) (value : PyVal) (expire : Option Nat) (nx xx : Bool)
  | get (key : String)
  | delete (keys : List String)
  | existsKeys (keys : List String)
  | set_hash (name : String) (mapping : List (String × PyVal))
  | get_hash (name : String)
  | get_hash_field (name field : String)
  | delete_hash (name : String) (fields : List String)
  | push_list (name : String) (values : List PyVal)
  | get_list (name : String) (start stop : Int)
  | add_to_set (name : String) (values : List PyVal)
  | get_set (name : String)
  | publish (channel : String) (message : PyVal)
  | subscribe (channel : String)
  | get_cluster_nodes
  | get_cluster_slots
  | get_key_slot (key : String)
  | get_node_for_key (key : String)

/-- Result of a cluster operation. -/
inductive CRes : Type where
  | bool (b : Bool)
  | opt (v : Option PyVal)
  | nat (n : Nat)
  | int (i : Int)
  | vals (vs : List PyVal)
  | pairs (m : List (String × String))
  | optStr (s : Option String)
  | sub (x : Option (List String))
  | nodes (ns : List NodeDesc)
  | slots (tbl : List (Nat × Nat × List NodeDesc))
  | node (nd : NodeDesc)

/-- Dispatch a cluster operation. -/
def runCOp : COp → RedisClusterClient → CStore → CRes × RedisClusterClient × CStore
  | .set k v e nx xx, c, st => let r := c.set st k v e nx xx; (.bool r.1, r.2)
  | .get k, c, st => let r := c.get st k; (.opt r.1, r.2)
  | .delete ks, c, st => let r := c.delete st ks; (.nat r.1, r.2)
  | .existsKeys ks, c, st => let r := c.existsKeys st ks; (.nat r.1, r.2)
  | .set_hash n m, c, st => let r := c.set_hash st n m; (.bool r.1, r.2)
  | .get_hash n, c, st => let r := c.get_hash st n; (.pairs r.1, r.2)
  | .get_hash_field n f2, c, st => let r := c.get_hash_field st n f2; (.optStr r.1, r.2)
  | .delete_hash n fs, c, st => let r := c.delete_hash st n fs; (.nat r.1, r.2)
  | .push_list n vs, c, st => let r := c.push_list st n vs; (.nat r.1, r.2)
  | .get_list n a b, c, st => let r := c.get_list st n a b; (.vals r.1, r.2)
  | .add_to_set n vs, c, st => let r := c.add_to_set st n vs; (.nat r.1, r.2)
  | .get_set n, c, st => let r := c.get_set st n; (.vals r.1, r.2)
  | .publish ch m, c, st => let r := c.publish st ch m; (.nat r.1, r.2)
  | .subscribe ch, c, st => let r := c.subscribe st ch; (.sub r.1, r.2)
  | .get_cluster_nodes, c, st => let r := c.get_cluster_nodes st; (.nodes r.1, r.2)
  | .get_cluster_slots, c, st => let r := c.get_cluster_slots st; (.slots r.1, r.2, st)
  | .get_key_slot k, c, st => let r := c.get_key_slot st k; (.int r.1, r.2, st)
  | .get_node_for_key k, c, st => let r := c.get_node_for_key st k; (.node r.1, r.2, st)

/-- The cluster handle field is null or holds a handle built from this
client's own configuration. -/
def InvC (c : RedisClusterClient) : Prop :=
  ∀ h, c._client = some h → h = mkCConn c

/-- Two cluster client states carry the same configuration. -/
def sameCConfig (a b : RedisClusterClient) : Prop :=
  a.startup_nodes = b.startup_nodes ∧ a.password = b.password ∧ a.ssl = b.ssl
    ∧ a.decode_responses = b.decode_responses
    ∧ a.skip_full_coverage_check = b.skip_full_coverage_check

/-! ### Concrete states used by witnesses and counterexamples -/

/-- A fresh single-node client (defaults of `__init__` with no environment
overrides). -/
def c0 : RedisClient :=
  { host := "localhost", port := 6379, db := 0, password := none, _client := none }

/-- An empty, healthy single-node store. -/
def st0 : Store :=
  { kv := [], lists := [], sets := [], hashes := [], subs := [], ttl := [],
    closeReqs := 0, broken := false }

/-- A broken-transport single-node store. -/
def stBroken : Store := { st0 with broken := true }

/-- A fresh cluster client (defaults of `__init__` with no environment
overrides). -/
def cc0 : RedisClusterClient :=
  { startup_nodes := [("localhost", 6379)], password := none, ssl := false,
    decode_responses := true, skip_full_coverage_check := true, _client := none }

/-- An empty, healthy, connectable cluster store whose topology assigns the
whole slot space to one node. -/
def cst0 : CStore :=
  { kv := [], lists := [], sets := [], hashes := [], subs := [], ttl := [], expireLog := [],
    topology := [(0, 16383, [[("host", "localhost"), ("port", "7000")]])],
    connectable := true, broken := false, slotsBroken := false, closeReqs := 0 }

/-- A cluster store that refuses connection construction. -/
def cstDown : CStore := { cst0 with connectable := false }

/-- A cluster client holding a live cached handle (as after a first
successful access). -/
def ccLive : RedisClusterClient := { cc0 with _client := some (mkCConn cc0) }

/-- A cluster store holding one key whose network no longer accepts new
connection construction (the cached handle keeps working). -/
def cstKV : CStore := { cstDown with kv := [("k", "v")] }

/-! ### Character facts -/

theorem char_toNat_ofNat {n : Nat} (h : n.isValidChar) : (Char.ofNat n).toNat = n := by
  unfold Char.ofNat
  rw [dif_pos h]
  rfl

theorem char_valid_nat (c : Char) : c.toNat < 55296 ∨ (57343 < c.toNat ∧ c.toNat < 1114112) := by
  rcases c.valid with h | ⟨h1, h2⟩
  · exact Or.inl h
  · exact Or.inr ⟨h1, h2⟩

theorem char_ne_of_toNat_ne {c d : Char} (h : c.toNat ≠ d.toNat) : c ≠ d := by
  intro he
  exact h (congrArg Char.toNat he)

theorem isValidChar_of_lt {n : Nat} (h : n < 55296) : n.isValidChar := Or.inl h

/-! ### Decimal digit lemmas -/

theorem digitChar_toNat {d : Nat} (h : d < 10) : (digitChar d).toNat = 48 + d :=
  char_toNat_ofNat (isValidChar_of_lt (by omega))

theorem isDigitChar_digitChar {d : Nat} (h : d < 10) : isDigitChar (digitChar d) = true := by
  simp [isDigitChar, digitChar_toNat h]
  omega

theorem natCharsAux_eq (fuel : Nat) : ∀ n acc, n ≤ fuel →
    natCharsAux fuel n acc = (Nat.digits 10 n).reverse.map digitChar ++ acc := by
  induction fuel with
  | zero =>
    intro n acc h
    interval_cases n
    simp [natCharsAux]
  | succ f ih =>
    intro n acc h
    by_cases h0 : n = 0
    · simp [natCharsAux, h0]
    · rw [natCharsAux, if_neg h0, ih (n / 10) _ (by omega),
        Nat.digits_def' (by norm_num) (Nat.pos_of_ne_zero h0)]
      simp

theorem natChars_eq (n : Nat) :
    natChars n = if n = 0 then ['0'] else (Nat.digits 10 n).reverse.map digitChar := by
  by_cases h : n = 0
  · simp [natChars, h]
  · rw [natChars, if_neg h, if_neg h, natCharsAux_eq n n [] (le_refl n), List.append_nil]

theorem natChars_digits (n : Nat) : ∀ c ∈ natChars n, isDigitChar c = true := by
  rw [natChars_eq]
  split
  · intro c hc
    simp at hc
    subst hc
    rfl
  · intro c hc
    simp at hc
    obtain ⟨d, hd, rfl⟩ := hc
    exact isDigitChar_digitChar (Nat.digits_lt_base (by norm_num) hd)

theorem natChars_ne_nil (n : Nat) : natChars n ≠ [] := by
  rw [natChars_eq]
  split
  · simp
  · simp [Nat.digits_ne_nil_iff_ne_zero, *]

theorem natChars_head_ne_zero {n : Nat} (h : n ≠ 0) : ∀ c t, natChars n = c :: t → c ≠ '0' := by
  intro c t hct
  rw [natChars_eq, if_neg h] at hct
  rcases he : (Nat.digits 10 n).reverse with _ | ⟨d, ds⟩
  · rw [he] at hct
    simp at hct
  · rw [he] at hct
    simp only [List.map_cons, List.cons.injEq] at hct
    have hdig : Nat.digits 10 n = ds.reverse ++ [d] := by
      rw [← List.reverse_reverse (Nat.digits 10 n), he]
      simp
    have hmem : d ∈ Nat.digits 10 n := by
      rw [hdig]
      simp
    have hlt : d < 10 := Nat.digits_lt_base (by norm_num) hmem
    have hnz : d ≠ 0 := by
      have hgl := Nat.getLast_digit_ne_zero 10 h
      have hgd : (Nat.digits 10 n).getLast (Nat.digits_ne_nil_iff_ne_zero.mpr h) = d := by
        simp [hdig]
      rw [hgd] at hgl
      exact hgl
    rw [← hct.1]
    apply char_ne_of_toNat_ne
    rw [digitChar_toNat hlt]
    show 48 + d ≠ 48
    omega

theorem digitsToNat_natChars (n : Nat) : digitsToNat (natChars n) = n := by
  by_cases h : n = 0
  · subst h
    rfl
  · rw [natChars_eq, if_neg h]
    unfold digitsToNat
    rw [← List.map_reverse, List.reverse_reverse]
    rw [List.map_map]
    have heq : List.map ((fun c => c.toNat - 48) ∘ digitChar) (Nat.digits 10 n)
        = Nat.digits 10 n := by
      conv_rhs => rw [← List.map_id (Nat.digits 10 n)]
      apply List.map_congr_left
      intro d hd
      have hlt : d < 10 := Nat.digits_lt_base (by norm_num) hd
      simp [Function.comp, digitChar_toNat hlt]
    rw [heq, Nat.ofDigits_digits]

theorem numOk_not_digit {c : Char} {t : List Char} (h : numOk (c :: t) = true) :
    isDigitChar c = false := by
  simp [numOk] at h
  exact h.1.1.1

theorem fracPart_numOk {r : List Char} (h : numOk r = true) : fracPart r = ([], r) := by
  cases r with
  | nil => rfl
  | cons c t =>
    simp [numOk] at h
    simp [fracPart, h.1.1.2]

theorem expPart_numOk {r : List Char} (h : numOk r = true) : expPart r = ([], r) := by
  cases r with
  | nil => rfl
  | cons c t =>
    simp [numOk] at h
    simp [expPart, h.1.2, h.2]

theorem spanDigits_append {ds r : List Char} (hds : ∀ c ∈ ds, isDigitChar c = true)
    (hr : numOk r = true) : spanDigits (ds ++ r) = (ds, r) := by
  induction ds with
  | nil =>
    cases r with
    | nil => rfl
    | cons c t =>
      have := numOk_not_digit hr
      simp [spanDigits, this]
  | cons c t ih =>
    have hd := hds c (List.mem_cons_self c t)
    have ht := ih (fun x hx => hds x (List.mem_cons_of_mem c hx))
    simp [spanDigits, hd, ht]

theorem digit_ne_dash {c : Char} (h : isDigitChar c = true) : c ≠ '-' := by
  intro he
  subst he
  exact absurd h (by decide)

theorem parseNum_natChars {n : Nat} {r : List Char} (hr : numOk r = true) :
    parseNum (natChars n ++ r) = some (.int (n : Int), r) := by
  rcases he : natChars n with _ | ⟨c, t⟩
  · exact absurd he (natChars_ne_nil n)
  · have hcd : isDigitChar c = true := natChars_digits n c (by rw [he]; exact List.mem_cons_self c t)
    have hnd : c ≠ '-' := digit_ne_dash hcd
    have hdt : digitsToNat (c :: t) = n := by
      rw [← he, digitsToNat_natChars]
    by_cases h0 : n = 0
    · subst h0
      have hct : c = '0' ∧ t = ([] : List Char) := by
        rw [natChars] at he
        simp at he
        exact ⟨he.1.symm, he.2⟩
      obtain ⟨rfl, rfl⟩ := hct
      simp [parseNum, hnd, hcd, fracPart_numOk hr, expPart_numOk hr, hdt]
    · have hc0 : c ≠ '0' := natChars_head_ne_zero h0 c t he
      have hspan : spanDigits (c :: (t ++ r)) = (c :: t, r) := by
        have hs := @spanDigits_append (natChars n) _ (natChars_digits n) hr
        rw [he] at hs
        simpa using hs
      simp [parseNum, hnd, hcd, hc0, hspan, fracPart_numOk hr, expPart_numOk hr, hdt]

theorem parseNum_intChars (i : Int) {r : List Char} (hr : numOk r = true) :
    parseNum (intChars i ++ r) = some (.int i, r) := by
  by_cases hneg : i < 0
  · rw [intChars, if_pos hneg]
    rcases he : natChars i.natAbs with _ | ⟨c, t⟩
    · exact absurd he (natChars_ne_nil _)
    · have hcd : isDigitChar c = true :=
        natChars_digits _ c (by rw [he]; exact List.mem_cons_self c t)
      have hm0 : i.natAbs ≠ 0 := by omega
      have hc0 : c ≠ '0' := natChars_head_ne_zero hm0 c t he
      have hdt : digitsToNat (c :: t) = i.natAbs := by
        rw [← he, digitsToNat_natChars]
      have hspan : spanDigits (c :: (t ++ r)) = (c :: t, r) := by
        have hs := @spanDigits_append (natChars i.natAbs) _ (natChars_digits _) hr
        rw [he] at hs
        simpa using hs
      have hval : -((i.natAbs : Nat) : Int) = i := by omega
      simp [parseNum, hcd, hc0, hspan, fracPart_numOk hr, expPart_numOk hr, hdt, hval, abs_of_neg hneg]
  · rw [intChars, if_neg hneg]
    have : (i.toNat : Int) = i := Int.toNat_of_nonneg (by omega)
    rw [parseNum_natChars hr, this]

/-! ### Hexadecimal lemmas -/

theorem hexDigitChar_toNat {d : Nat} (h : d < 16) :
    (hexDigitChar d).toNat = if d < 10 then 48 + d else 87 + d := by
  unfold hexDigitChar
  split
  · exact char_toNat_ofNat (isValidChar_of_lt (by omega))
  · exact char_toNat_ofNat (isValidChar_of_lt (by omega))

theorem hexVal_hexDigitChar {d : Nat} (h : d < 16) : hexVal (hexDigitChar d) = some d := by
  by_cases h10 : d < 10
  · unfold hexVal
    rw [hexDigitChar_toNat h, if_pos h10, if_pos (by omega)]
    congr 1
    omega
  · unfold hexVal
    rw [hexDigitChar_toNat h, if_neg h10, if_neg (by omega), if_pos (by omega)]
    congr 1
    omega

theorem hex4val_hex4 {n : Nat} (h : n < 65536) :
    hex4val (hexDigitChar (n / 4096 % 16)) (hexDigitChar (n / 256 % 16))
      (hexDigitChar (n / 16 % 16)) (hexDigitChar (n % 16)) = some n := by
  rw [hex4val]
  rw [hexVal_hexDigitChar (Nat.mod_lt _ (by norm_num)),
    hexVal_hexDigitChar (Nat.mod_lt _ (by norm_num)),
    hexVal_hexDigitChar (Nat.mod_lt _ (by norm_num)),
    hexVal_hexDigitChar (Nat.mod_lt _ (by norm_num))]
  show some _ = some n
  congr 1
  omega

/-! ### String escaping round-trip -/

theorem unescapeU_bmp {n : Nat} (hn : n < 65536) (hs1 : ¬(55296 ≤ n ∧ n ≤ 56319))
    (t : List Char) :
    unescapeU (hex4 n ++ t) = some (n, t) := by
  simp only [hex4, List.cons_append, List.nil_append]
  simp only [unescapeU]
  rw [hex4val_hex4 hn]
  simp [hs1]

theorem unescapeU_pair {c : Char} (h : 65536 ≤ c.toNat) (t : List Char) :
    unescapeU (hex4 (55296 + (c.toNat - 65536) / 1024)
      ++ '\\' :: 'u' :: (hex4 (56320 + (c.toNat - 65536) % 1024) ++ t)) = some (c.toNat, t) := by
  have hub : c.toNat < 1114112 := by rcases char_valid_nat c with hh | hh <;> omega
  have hmod : (c.toNat - 65536) % 1024 < 1024 := Nat.mod_lt _ (by norm_num)
  have hdiv : (c.toNat - 65536) / 1024 < 1024 := by omega
  obtain ⟨N, hN⟩ : ∃ N, 55296 + (c.toNat - 65536) / 1024 = N := ⟨_, rfl⟩
  obtain ⟨M, hM⟩ : ∃ M, 56320 + (c.toNat - 65536) % 1024 = M := ⟨_, rfl⟩
  rw [hN, hM]
  have hNlt : N < 65536 := by omega
  have hMlt : M < 65536 := by omega
  have hifN : 55296 ≤ N ∧ N ≤ 56319 := by omega
  have hifM : 56320 ≤ M ∧ M ≤ 57343 := by omega
  have harith : 65536 + (N - 55296) * 1024 + (M - 56320) = c.toNat := by omega
  simp only [hex4, List.cons_append, List.nil_append]
  simp only [unescapeU]
  rw [hex4val_hex4 hNlt]
  simp only [hifN, if_true, and_true, true_and, if_pos]
  rw [hex4val_hex4 hMlt]
  simp [hifM]
  rw [harith]

theorem parseStrBody_escChar (c : Char) (fuel : Nat) (t : List Char) :
    parseStrBody (fuel + 1) (escChar c ++ t) = consRes c.toNat (parseStrBody fuel t) := by
  by_cases h1 : c = '"'
  · subst h1; rfl
  by_cases h2 : c = '\\'
  · subst h2; rfl
  by_cases h3 : c = Char.ofNat 8
  · subst h3; rfl
  by_cases h4 : c = Char.ofNat 12
  · subst h4; rfl
  by_cases h5 : c = Char.ofNat 10
  · subst h5; rfl
  by_cases h6 : c = Char.ofNat 13
  · subst h6; rfl
  by_cases h7 : c = Char.ofNat 9
  · subst h7; rfl
  by_cases h8 : 32 ≤ c.toNat ∧ c.toNat ≤ 126
  · rw [escChar, if_neg h1, if_neg h2, if_neg h3, if_neg h4, if_neg h5, if_neg h6, if_neg h7,
      if_pos h8]
    have h32 : ¬ c.toNat < 32 := by omega
    show parseStrBody (fuel + 1) (c :: t) = _
    simp [parseStrBody, h1, h2, h32]
  by_cases h9 : c.toNat < 65536
  · rw [escChar, if_neg h1, if_neg h2, if_neg h3, if_neg h4, if_neg h5, if_neg h6, if_neg h7,
      if_neg h8, if_pos h9]
    have hv := char_valid_nat c
    have hs1 : ¬(55296 ≤ c.toNat ∧ c.toNat ≤ 56319) := by rcases hv with h | h <;> omega
    show parseStrBody (fuel + 1) ('\\' :: 'u' :: (hex4 c.toNat ++ t)) = _
    simp [parseStrBody, unescapeStep, unescapeU_bmp h9 hs1]
  · rw [escChar, if_neg h1, if_neg h2, if_neg h3, if_neg h4, if_neg h5, if_neg h6, if_neg h7,
      if_neg h8, if_neg h9]
    have h65 : 65536 ≤ c.toNat := by omega
    show parseStrBody (fuel + 1)
      ('\\' :: 'u' :: (hex4 (55296 + (c.toNat - 65536) / 1024)
        ++ '\\' :: 'u' :: (hex4 (56320 + (c.toNat - 65536) % 1024) ++ t))) = _
    have hu := unescapeU_pair h65 (t := t)
    obtain ⟨N, hN⟩ : ∃ N, 55296 + (c.toNat - 65536) / 1024 = N := ⟨_, rfl⟩
    obtain ⟨M, hM⟩ : ∃ M, 56320 + (c.toNat - 65536) % 1024 = M := ⟨_, rfl⟩
    rw [hN, hM] at hu ⊢
    have hstep : unescapeStep ('u' :: (hex4 N ++ '\\' :: 'u' :: (hex4 M ++ t)))
        = some (c.toNat, t) := by
      show unescapeU (hex4 N ++ '\\' :: 'u' :: (hex4 M ++ t)) = some (c.toNat, t)
      exact hu
    have hpsb : parseStrBody (fuel + 1)
        ('\\' :: 'u' :: (hex4 N ++ '\\' :: 'u' :: (hex4 M ++ t)))
        = match unescapeStep ('u' :: (hex4 N ++ '\\' :: 'u' :: (hex4 M ++ t))) with
          | none => none
          | some (ch, r2) => consRes ch (parseStrBody fuel r2) := rfl
    rw [hpsb, hstep]

theorem parseStrBody_escStr (s : List Char) : ∀ (fuel : Nat) (r : List Char),
    s.length < fuel → parseStrBody fuel (escStr s ++ '"' :: r) = some (s.map Char.toNat, r) := by
  induction s with
  | nil =>
    intro fuel r h
    match fuel, h with
    | f + 1, _ => rfl
  | cons c t ih =>
    intro fuel r h
    match fuel, h with
    | f + 1, h =>
      rw [escStr, List.flatMap_cons, List.append_assoc, ← escStr]
      rw [parseStrBody_escChar, ih f r (by simp at h; omega)]
      rfl

theorem codeValid_toNat (c : Char) : codeValid c.toNat = true := by
  rcases char_valid_nat c with h | ⟨h1, h2⟩ <;> simp [codeValid] <;> omega

theorem all_codeValid_map_toNat (s : List Char) : (s.map Char.toNat).all codeValid = true := by
  simp only [List.all_eq_true]
  intro n hn
  simp only [List.mem_map] at hn
  obtain ⟨c, _, rfl⟩ := hn
  exact codeValid_toNat c

theorem map_ofNat_toNat (s : List Char) : (s.map Char.toNat).map Char.ofNat = s := by
  rw [List.map_map]
  conv_rhs => rw [← List.map_id s]
  exact List.map_congr_left (fun c _ => Char.ofNat_toNat c)

theorem strVal_of_chars (s : List Char) : strVal (s.map Char.toNat) = .str (String.mk s) := by
  unfold strVal
  rw [if_pos (all_codeValid_map_toNat s), map_ofNat_toNat]

theorem keyVal_of_chars (s : List Char) : keyVal (s.map Char.toNat) = .s (String.mk s) := by
  unfold keyVal
  rw [if_pos (all_codeValid_map_toNat s), map_ofNat_toNat]

theorem escChar_ne_nil (c : Char) : escChar c ≠ [] := by
  unfold escChar
  split_ifs <;> simp [hex4]

theorem length_le_escStr (s : List Char) : s.length ≤ (escStr s).length := by
  induction s with
  | nil => simp [escStr]
  | cons c t ih =>
    rw [escStr, List.flatMap_cons, ← escStr]
    have h1 : 1 ≤ (escChar c).length := by
      rcases he : escChar c with _ | ⟨a, b⟩
      · exact absurd he (escChar_ne_nil c)
      · simp
    simp only [List.length_append, List.length_cons]
    omega

/-! ### Whitespace and head-character lemmas -/

theorem skipWs_not_ws {c : Char} {t : List Char}
    (h : ¬(c = ' ' ∨ c = Char.ofNat 9 ∨ c = Char.ofNat 10 ∨ c = Char.ofNat 13)) :
    skipWs (c :: t) = c :: t := by
  simp [skipWs, h]

theorem skipWs_space (t : List Char) : skipWs (' ' :: t) = skipWs t := by
  simp [skipWs]

theorem isDigitChar_not_ws {c : Char} (h : isDigitChar c = true) :
    ¬(c = ' ' ∨ c = Char.ofNat 9 ∨ c = Char.ofNat 10 ∨ c = Char.ofNat 13) := by
  simp [isDigitChar] at h
  intro hc
  rcases hc with hc | hc | hc | hc <;> subst hc <;> revert h <;> decide

theorem goodHead_not_ws {c : Char} (h : goodHead c = true) :
    ¬(c = ' ' ∨ c = Char.ofNat 9 ∨ c = Char.ofNat 10 ∨ c = Char.ofNat 13) := by
  simp [goodHead] at h
  rcases h with ((((((h | h) | h) | h) | h) | h) | h) | h
  all_goals try (subst h; decide)
  exact isDigitChar_not_ws h

theorem goodHead_skipWs {c : Char} {t : List Char} (h : goodHead c = true) :
    skipWs (c :: t) = c :: t :=
  skipWs_not_ws (goodHead_not_ws h)

theorem isDigitChar_ne {c d : Char} (h : isDigitChar c = true)
    (hd : ¬(48 ≤ d.toNat ∧ d.toNat ≤ 57)) : c ≠ d := by
  simp [isDigitChar] at h
  apply char_ne_of_toNat_ne
  omega

theorem goodHead_ne_rbrack {c : Char} (h : goodHead c = true) : c ≠ ']' := by
  simp [goodHead] at h
  rcases h with ((((((h | h) | h) | h) | h) | h) | h) | h
  all_goals try (subst h; decide)
  exact isDigitChar_ne h (by decide)

theorem goodHead_ne_rbrace {c : Char} (h : goodHead c = true) : c ≠ '}' := by
  simp [goodHead] at h
  rcases h with ((((((h | h) | h) | h) | h) | h) | h) | h
  all_goals try (subst h; decide)
  exact isDigitChar_ne h (by decide)

theorem intChars_head (i : Int) :
    ∃ c t, intChars i = c :: t ∧ (c = '-' ∨ isDigitChar c = true) := by
  by_cases hneg : i < 0
  · exact ⟨'-', natChars i.natAbs, by rw [intChars, if_pos hneg], Or.inl rfl⟩
  · rcases he : natChars i.toNat with _ | ⟨c, t⟩
    · exact absurd he (natChars_ne_nil _)
    · refine ⟨c, t, by rw [intChars, if_neg hneg, he], Or.inr ?_⟩
      exact natChars_digits _ c (by rw [he]; exact List.mem_cons_self c t)

theorem numHead_goodHead {c : Char} (h : c = '-' ∨ isDigitChar c = true) :
    goodHead c = true := by
  rcases h with h | h
  · subst h; decide
  · simp [goodHead, h]

theorem wfArr_cons {x : PyVal} {xs : List PyVal} (hw : wfArr (x :: xs) = true) :
    wfB x = true ∧ wfArr xs = true := by
  rw [show wfArr (x :: xs) = (wfB x && wfArr xs) from rfl] at hw
  simpa using hw

theorem wfObj_cons {k : PyKey} {v : PyVal} {kvs : List (PyKey × PyVal)}
    (hw : wfObj ((k, v) :: kvs) = true) :
    k.isStr = true ∧ keysMem k kvs = false ∧ wfB v = true ∧ wfObj kvs = true := by
  rw [show wfObj ((k, v) :: kvs)
      = (k.isStr && !keysMem k kvs && wfB v && wfObj kvs) from rfl] at hw
  simp only [Bool.and_eq_true, Bool.not_eq_true'] at hw
  exact ⟨hw.1.1.1, hw.1.1.2, hw.1.2, hw.2⟩

theorem dumpsV_head (v : PyVal) (hw : wfB v = true) :
    ∃ c t, dumpsV v = c :: t ∧ goodHead c = true := by
  cases v with
  | null => exact ⟨'n', _, rfl, rfl⟩
  | bool b =>
    cases b with
    | false => exact ⟨'f', _, rfl, rfl⟩
    | true => exact ⟨'t', _, rfl, rfl⟩
  | int i =>
    obtain ⟨c, t, hct, hd⟩ := intChars_head i
    exact ⟨c, t, hct, numHead_goodHead hd⟩
  | float lit => exact absurd hw (by simp [wfB])
  | str s => exact ⟨'"', _, rfl, rfl⟩
  | codes cs => exact ⟨'"', _, rfl, rfl⟩
  | list xs => exact ⟨'[', _, rfl, rfl⟩
  | dict kvs => exact ⟨'{', _, rfl, rfl⟩

theorem dumpsArr_head {xs : List PyVal} (h : xs ≠ []) (hw : wfArr xs = true) :
    ∃ c t, dumpsArr xs = c :: t ∧ goodHead c = true := by
  match xs, h with
  | [x], _ =>
    obtain ⟨c, t, hct, hg⟩ := dumpsV_head x (wfArr_cons hw).1
    exact ⟨c, t, by rw [dumpsArr, hct], hg⟩
  | x :: y :: tt, _ =>
    obtain ⟨c, t, hct, hg⟩ := dumpsV_head x (wfArr_cons hw).1
    exact ⟨c, t ++ (',' :: ' ' :: dumpsArr (y :: tt)), by rw [dumpsArr, hct]; rfl, hg⟩

theorem numHead_ne {c : Char} (h : c = '-' ∨ isDigitChar c = true) :
    c ≠ '"' ∧ c ≠ '[' ∧ c ≠ '{' ∧ c ≠ 'n' ∧ c ≠ 't' ∧ c ≠ 'f' ∧ c ≠ 'N' ∧ c ≠ 'I' := by
  rcases h with h | h
  · subst h
    refine ⟨by decide, by decide, by decide, by decide, by decide, by decide, by decide,
      by decide⟩
  · exact ⟨isDigitChar_ne h (by decide), isDigitChar_ne h (by decide),
      isDigitChar_ne h (by decide), isDigitChar_ne h (by decide),
      isDigitChar_ne h (by decide), isDigitChar_ne h (by decide),
      isDigitChar_ne h (by decide), isDigitChar_ne h (by decide)⟩

/-! ### Cost bounds: the fuel `loads` passes is always enough -/

theorem intChars_ne_nil (i : Int) : intChars i ≠ [] := by
  unfold intChars
  split
  · simp
  · exact natChars_ne_nil _

mutual

theorem costV_le (v : PyVal) (hw : wfB v = true) : costV v ≤ (dumpsV v).length := by
  cases v with
  | null => simp [costV, dumpsV]
  | bool b => cases b <;> simp [costV, dumpsV]
  | int i =>
    rcases he : intChars i with _ | ⟨c, t⟩
    · exact absurd he (intChars_ne_nil i)
    · simp [costV, dumpsV, he]
  | float lit => exact absurd hw (by simp [wfB])
  | str s => simp [costV, dumpsV, dumpsStr]
  | codes cs => exact absurd hw (by simp [wfB])
  | list xs =>
    have h := costArr_le xs hw
    simp only [costV, dumpsV, List.length_cons, List.length_append, List.length_singleton]
    omega
  | dict kvs =>
    have h := costObj_le kvs hw
    simp only [costV, dumpsV, List.length_cons, List.length_append, List.length_singleton]
    omega

theorem costArr_le (xs : List PyVal) (hw : wfArr xs = true) :
    costArr xs ≤ (dumpsArr xs).length + 1 := by
  match xs with
  | [] => simp [costArr]
  | [x] =>
    have h := costV_le x (wfArr_cons hw).1
    simp only [costArr, costArr.eq_1, dumpsArr]
    omega
  | x :: y :: tt =>
    have h1 := costV_le x (wfArr_cons hw).1
    have h2 := costArr_le (y :: tt) (wfArr_cons hw).2
    have hm : max (costV x) (costArr (y :: tt)) ≤ costV x + costArr (y :: tt) :=
      max_le (Nat.le_add_right _ _) (Nat.le_add_left _ _)
    rw [show costArr (x :: y :: tt) = 1 + max (costV x) (costArr (y :: tt)) from rfl,
      show dumpsArr (x :: y :: tt) = dumpsV x ++ (',' :: ' ' :: dumpsArr (y :: tt)) from rfl]
    simp only [List.length_append, List.length_cons]
    omega

theorem costObj_le (kvs : List (PyKey × PyVal)) (hw : wfObj kvs = true) :
    costObj kvs ≤ (dumpsObj kvs).length + 1 := by
  match kvs with
  | [] => simp [costObj]
  | [(k, v)] =>
    have h := costV_le v (wfObj_cons hw).2.2.1
    simp only [costObj, costObj.eq_1, dumpsObj, List.length_append, List.length_cons]
    omega
  | (k, v) :: e :: tt =>
    have h1 := costV_le v (wfObj_cons hw).2.2.1
    have h2 := costObj_le (e :: tt) (wfObj_cons hw).2.2.2
    have hm : max (costV v) (costObj (e :: tt)) ≤ costV v + costObj (e :: tt) :=
      max_le (Nat.le_add_right _ _) (Nat.le_add_left _ _)
    rw [show costObj ((k, v) :: e :: tt) = 1 + max (costV v) (costObj (e :: tt)) from rfl,
      show dumpsObj ((k, v) :: e :: tt)
        = dumpsKey k ++ (':' :: ' ' :: dumpsV v) ++ (',' :: ' ' :: dumpsObj (e :: tt)) from rfl]
    simp only [List.length_append, List.length_cons]
    omega

end

/-! ### One-step reduction lemmas for the value parser -/

theorem parseVal_str_step {f : Nat} {X r2 : List Char} {s : List Nat}
    (h : parseStrBody (X.length + 1) X = some (s, r2)) :
    parseVal (f + 1) ('"' :: X) = some (strVal s, r2) := by
  have hstep : parseVal (f + 1) ('"' :: X)
      = match parseStrBody (X.length + 1) X with
        | some (s, r2) => some (strVal s, r2)
        | none => none := rfl
  rw [hstep, h]

theorem parseVal_arr_nil {f : Nat} {X r2 : List Char} (hX : skipWs X = ']' :: r2) :
    parseVal (f + 1) ('[' :: X) = some (.list [], r2) := by
  have hstep : parseVal (f + 1) ('[' :: X)
      = match skipWs X with
        | [] => none
        | d :: r2 =>
          if d = ']' then some (.list [], r2)
          else
            match parseArrElems f (d :: r2) with
            | some (xs, r3) => some (.list xs, r3)
            | none => none := rfl
  rw [hstep]
  simp only [hX, if_true]

theorem parseVal_arr_cons {f : Nat} {X r2 : List Char} {d : Char} {xs : List PyVal}
    {r3 : List Char} (hX : skipWs X = d :: r2) (hd : d ≠ ']')
    (h : parseArrElems f (d :: r2) = some (xs, r3)) :
    parseVal (f + 1) ('[' :: X) = some (.list xs, r3) := by
  have hstep : parseVal (f + 1) ('[' :: X)
      = match skipWs X with
        | [] => none
        | d :: r2 =>
          if d = ']' then some (.list [], r2)
          else
            match parseArrElems f (d :: r2) with
            | some (xs, r3) => some (.list xs, r3)
            | none => none := rfl
  rw [hstep]
  simp only [hX]
  rw [if_neg hd, h]

theorem parseVal_obj_nil {f : Nat} {X r2 : List Char} (hX : skipWs X = '}' :: r2) :
    parseVal (f + 1) ('{' :: X) = some (.dict [], r2) := by
  have hstep : parseVal (f + 1) ('{' :: X)
      = match skipWs X with
        | [] => none
        | d :: r2 =>
          if d = '}' then some (.dict [], r2)
          else
            match parseObjElems f (d :: r2) with
            | some (ps, r3) => some (.dict (dedupPairs ps), r3)
            | none => none := rfl
  rw [hstep]
  simp only [hX, if_true]

theorem parseVal_obj_cons {f : Nat} {X r2 : List Char} {d : Char}
    {ps : List (PyKey × PyVal)} {r3 : List Char} (hX : skipWs X = d :: r2) (hd : d ≠ '}')
    (h : parseObjElems f (d :: r2) = some (ps, r3)) :
    parseVal (f + 1) ('{' :: X) = some (.dict (dedupPairs ps), r3) := by
  have hstep : parseVal (f + 1) ('{' :: X)
      = match skipWs X with
        | [] => none
        | d :: r2 =>
          if d = '}' then some (.dict [], r2)
          else
            match parseObjElems f (d :: r2) with
            | some (ps, r3) => some (.dict (dedupPairs ps), r3)
            | none => none := rfl
  rw [hstep]
  simp only [hX]
  rw [if_neg hd, h]

theorem parseVal_int {f : Nat} (i : Int) {r : List Char} (hr : numOk r = true) :
    parseVal (f + 1) (intChars i ++ r) = some (.int i, r) := by
  obtain ⟨c, t, hct, hd⟩ := intChars_head i
  obtain ⟨hq, hlb, hcb, hn, ht, hf, hN, hI⟩ := numHead_ne hd
  have hstep : parseVal (f + 1) (c :: (t ++ r))
      = if c = '"' then
          match parseStrBody ((t ++ r).length + 1) (t ++ r) with
          | some (s, r2) => some (strVal s, r2)
          | none => none
        else if c = '[' then
          match skipWs (t ++ r) with
          | [] => none
          | d :: r2 =>
            if d = ']' then some (.list [], r2)
            else
              match parseArrElems f (d :: r2) with
              | some (xs, r3) => some (.list xs, r3)
              | none => none
        else if c = '{' then
          match skipWs (t ++ r) with
          | [] => none
          | d :: r2 =>
            if d = '}' then some (.dict [], r2)
            else
              match parseObjElems f (d :: r2) with
              | some (ps, r3) => some (.dict (dedupPairs ps), r3)
              | none => none
        else if c = 'n' then
          match stripLit ['n', 'u', 'l', 'l'] (c :: (t ++ r)) with
          | some r2 => some (.null, r2)
          | none => none
        else if c = 't' then
          match stripLit ['t', 'r', 'u', 'e'] (c :: (t ++ r)) with
          | some r2 => some (.bool true, r2)
          | none => none
        else if c = 'f' then
          match stripLit ['f', 'a', 'l', 's', 'e'] (c :: (t ++ r)) with
          | some r2 => some (.bool false, r2)
          | none => none
        else if c = 'N' then
          match stripLit "NaN".data (c :: (t ++ r)) with
          | some r2 => some (.float "NaN".data, r2)
          | none => none
        else if c = 'I' then
          match stripLit "Infinity".data (c :: (t ++ r)) with
          | some r2 => some (.float "Infinity".data, r2)
          | none => none
        else
          match parseNum (c :: (t ++ r)) with
          | some res => some res
          | none =>
            match stripLit "-Infinity".data (c :: (t ++ r)) with
            | some r2 => some (.float "-Infinity".data, r2)
            | none => none := rfl
  rw [hct, List.cons_append, hstep, if_neg hq, if_neg hlb, if_neg hcb, if_neg hn, if_neg ht,
    if_neg hf, if_neg hN, if_neg hI, ← List.cons_append, ← hct,
    parseNum_intChars i hr]

theorem parseArrElems_last {f : Nat} {cs : List Char} {v : PyVal} {r r2 : List Char}
    (h : parseVal f cs = some (v, r)) (hr : skipWs r = ']' :: r2) :
    parseArrElems (f + 1) cs = some ([v], r2) := by
  have hstep : parseArrElems (f + 1) cs
      = match parseVal f cs with
        | none => none
        | some (v, r) =>
          match skipWs r with
          | [] => none
          | d :: r2 =>
            if d = ']' then some ([v], r2)
            else if d = ',' then
              match parseArrElems f (skipWs r2) with
              | some (vs, r3) => some (v :: vs, r3)
              | none => none
            else none := rfl
  rw [hstep, h]
  simp [hr]

theorem parseArrElems_cons {f : Nat} {cs : List Char} {v : PyVal} {vs : List PyVal}
    {r r2 r3 : List Char} (h : parseVal f cs = some (v, r)) (hr : skipWs r = ',' :: r2)
    (h2 : parseArrElems f (skipWs r2) = some (vs, r3)) :
    parseArrElems (f + 1) cs = some (v :: vs, r3) := by
  have hstep : parseArrElems (f + 1) cs
      = match parseVal f cs with
        | none => none
        | some (v, r) =>
          match skipWs r with
          | [] => none
          | d :: r2 =>
            if d = ']' then some ([v], r2)
            else if d = ',' then
              match parseArrElems f (skipWs r2) with
              | some (vs, r3) => some (v :: vs, r3)
              | none => none
            else none := rfl
  rw [hstep, h]
  simp [hr, h2]

theorem parseObjElems_last {f : Nat} {X r1 r2 r3 r4 : List Char} {ks : List Nat} {v : PyVal}
    (hk : parseStrBody (X.length + 1) X = some (ks, r1))
    (h1 : skipWs r1 = ':' :: r2)
    (hv : parseVal f (skipWs r2) = some (v, r3))
    (h3 : skipWs r3 = '}' :: r4) :
    parseObjElems (f + 1) ('"' :: X) = some ([(keyVal ks, v)], r4) := by
  have hstep : parseObjElems (f + 1) ('"' :: X)
      = match parseStrBody (X.length + 1) X with
        | none => none
        | some (k, r1) =>
          match skipWs r1 with
          | [] => none
          | d :: r2 =>
            if d = ':' then
              match parseVal f (skipWs r2) with
              | none => none
              | some (v, r3) =>
                match skipWs r3 with
                | [] => none
                | e :: r4 =>
                  if e = '}' then some ([(keyVal k, v)], r4)
                  else if e = ',' then
                    match parseObjElems f (skipWs r4) with
                    | some (ps, r5) => some ((keyVal k, v) :: ps, r5)
                    | none => none
                  else none
            else none := rfl
  rw [hstep, hk]
  simp [h1, hv, h3]

theorem parseObjElems_cons {f : Nat} {X r1 r2 r3 r4 r5 : List Char} {ks : List Nat} {v : PyVal}
    {ps : List (PyKey × PyVal)}
    (hk : parseStrBody (X.length + 1) X = some (ks, r1))
    (h1 : skipWs r1 = ':' :: r2)
    (hv : parseVal f (skipWs r2) = some (v, r3))
    (h3 : skipWs r3 = ',' :: r4)
    (h4 : parseObjElems f (skipWs r4) = some (ps, r5)) :
    parseObjElems (f + 1) ('"' :: X) = some ((keyVal ks, v) :: ps, r5) := by
  have hstep : parseObjElems (f + 1) ('"' :: X)
      = match parseStrBody (X.length + 1) X with
        | none => none
        | some (k, r1) =>
          match skipWs r1 with
          | [] => none
          | d :: r2 =>
            if d = ':' then
              match parseVal f (skipWs r2) with
              | none => none
              | some (v, r3) =>
                match skipWs r3 with
                | [] => none
                | e :: r4 =>
                  if e = '}' then some ([(keyVal k, v)], r4)
                  else if e = ',' then
                    match parseObjElems f (skipWs r4) with
                    | some (ps, r5) => some ((keyVal k, v) :: ps, r5)
                    | none => none
                  else none
            else none := rfl
  rw [hstep, hk]
  simp [h1, hv, h3, h4]

/-! ### `dict(pairs)` on pairwise-distinct keys is the identity -/

theorem keysMem_ne {k : PyKey} {t : List (PyKey × PyVal)} (h : keysMem k t = false) :
    ∀ p ∈ t, p.1 ≠ k := by
  induction t with
  | nil => intro p hp; simp at hp
  | cons q u ih =>
    intro p hp
    match q with
    | (k2, v2) =>
      simp [keysMem] at h
      rcases List.mem_cons.mp hp with rfl | hmem
      · exact h.1
      · exact ih h.2 p hmem

theorem objInsert_notin {acc : List (PyKey × PyVal)} {k : PyKey} {v : PyVal}
    (h : ∀ p ∈ acc, p.1 ≠ k) : objInsert acc k v = acc ++ [(k, v)] := by
  induction acc with
  | nil => rfl
  | cons q t ih =>
    match q with
    | (k2, v2) =>
      have hne : k2 ≠ k := h (k2, v2) (List.mem_cons_self _ _)
      rw [objInsert, if_neg hne, ih (fun p hp => h p (List.mem_cons_of_mem _ hp))]
      rfl

theorem foldl_objInsert : ∀ (ps acc : List (PyKey × PyVal)), wfObj ps = true →
    (∀ p ∈ ps, ∀ q ∈ acc, q.1 ≠ p.1) →
    ps.foldl (fun m p => objInsert m p.1 p.2) acc = acc ++ ps := by
  intro ps
  induction ps with
  | nil => intro acc _ _; simp
  | cons p t ih =>
    intro acc hw hdisj
    match p with
    | (k, v) =>
      obtain ⟨hks, hkm, hwv, hwt⟩ := wfObj_cons hw
      rw [List.foldl_cons]
      rw [show objInsert acc (k, v).1 (k, v).2 = acc ++ [(k, v)] from
        objInsert_notin (fun q hq => hdisj (k, v) (List.mem_cons_self _ _) q hq)]
      rw [ih (acc ++ [(k, v)]) hwt ?disj]
      · simp
      case disj =>
        intro p2 hp2 q hq
        rcases List.mem_append.mp hq with hqa | hqs
        · exact hdisj p2 (List.mem_cons_of_mem _ hp2) q hqa
        · have : q = (k, v) := by simpa using hqs
          subst this
          exact (keysMem_ne hkm p2 hp2).symm

theorem dedupPairs_wf {ps : List (PyKey × PyVal)} (hw : wfObj ps = true) :
    dedupPairs ps = ps := by
  rw [dedupPairs, foldl_objInsert ps [] hw (fun p _ q hq => absurd hq (List.not_mem_nil q))]
  rfl

theorem dumpsKey_head (k : PyKey) : ∃ w, dumpsKey k = '"' :: w := by
  match k with
  | .s s => exact ⟨escStr s.data ++ ['"'], rfl⟩
  | .codes cs => exact ⟨escCodes cs ++ ['"'], rfl⟩

theorem dumpsObj_head (kv : PyKey × PyVal) (t : List (PyKey × PyVal)) :
    ∃ u, dumpsObj (kv :: t) = '"' :: u := by
  obtain ⟨k, v⟩ := kv
  obtain ⟨w, hw⟩ := dumpsKey_head k
  match t with
  | [] => exact ⟨w ++ (':' :: ' ' :: dumpsV v), by rw [dumpsObj, hw]; rfl⟩
  | e :: tt =>
    exact ⟨w ++ (':' :: ' ' :: dumpsV v) ++ (',' :: ' ' :: dumpsObj (e :: tt)),
      by rw [dumpsObj, hw]; rfl⟩

/-! ### The parse-of-print theorem -/

theorem costV_pos (v : PyVal) : 1 ≤ costV v := by
  cases v <;> simp [costV]

mutual

theorem parseVal_dumps (v : PyVal) (fuel : Nat) (r : List Char)
    (hw : wfB v = true) (hf : costV v ≤ fuel) (hr : numOk r = true) :
    parseVal fuel (dumpsV v ++ r) = some (v, r) := by
  obtain ⟨f, rfl⟩ : ∃ f, fuel = f + 1 := by
    have := costV_pos v
    cases fuel
    · omega
    · exact ⟨_, rfl⟩
  cases v with
  | null => rfl
  | bool b => cases b <;> rfl
  | int i => exact parseVal_int i hr
  | float lit => exact absurd hw (by simp [wfB])
  | str s =>
    rw [show dumpsV (.str s) = '"' :: (escStr s.data ++ ['"']) from rfl, List.cons_append,
      List.append_assoc, List.singleton_append]
    have hlen : s.data.length < (escStr s.data ++ '"' :: r).length + 1 := by
      have h1 := length_le_escStr s.data
      simp only [List.length_append, List.length_cons]
      omega
    have h := parseVal_str_step (f := f) (parseStrBody_escStr s.data _ r hlen)
    rwa [strVal_of_chars] at h
  | codes cs => exact absurd hw (by simp [wfB])
  | list xs =>
    rw [show dumpsV (.list xs) = '[' :: (dumpsArr xs ++ [']']) from rfl, List.cons_append,
      List.append_assoc, List.singleton_append]
    cases xs with
    | nil =>
      rw [show dumpsArr ([] : List PyVal) = [] from rfl, List.nil_append]
      exact parseVal_arr_nil (skipWs_not_ws (by decide))
    | cons x t =>
      obtain ⟨c, u, hcu, hg⟩ := @dumpsArr_head (x :: t) (by simp) hw
      rw [hcu, List.cons_append]
      refine parseVal_arr_cons (goodHead_skipWs hg) (goodHead_ne_rbrack hg) ?_
      rw [show c :: (u ++ ']' :: r) = dumpsArr (x :: t) ++ ']' :: r by rw [hcu]; rfl]
      refine parseArrElems_dumps (x :: t) f r hw (by simp) ?_
      have h2 : 1 + costArr (x :: t) ≤ f + 1 := hf
      omega
  | dict kvs =>
    rw [show dumpsV (.dict kvs) = '{' :: (dumpsObj kvs ++ ['}']) from rfl, List.cons_append,
      List.append_assoc, List.singleton_append]
    cases kvs with
    | nil =>
      rw [show dumpsObj ([] : List (PyKey × PyVal)) = [] from rfl, List.nil_append]
      exact parseVal_obj_nil (skipWs_not_ws (by decide))
    | cons kv t =>
      obtain ⟨u, hcu⟩ := dumpsObj_head kv t
      rw [hcu, List.cons_append]
      have hrec : parseObjElems f ('"' :: (u ++ '}' :: r)) = some (kv :: t, r) := by
        rw [show '"' :: (u ++ '}' :: r) = dumpsObj (kv :: t) ++ '}' :: r by rw [hcu]; rfl]
        refine parseObjElems_dumps (kv :: t) f r hw (by simp) ?_
        have h2 : 1 + costObj (kv :: t) ≤ f + 1 := hf
        omega
      have h := parseVal_obj_cons (skipWs_not_ws (by decide)) (by decide) hrec
      rw [dedupPairs_wf hw] at h
      exact h

theorem parseArrElems_dumps (xs : List PyVal) (fuel : Nat) (r : List Char)
    (hw : wfArr xs = true) (hne : xs ≠ []) (hf : costArr xs ≤ fuel) :
    parseArrElems fuel (dumpsArr xs ++ ']' :: r) = some (xs, r) := by
  match xs, hne with
  | [x], _ =>
    obtain ⟨f, rfl⟩ : ∃ f, fuel = f + 1 := by
      have : 1 ≤ costArr [x] := by simp [costArr]
      cases fuel
      · omega
      · exact ⟨_, rfl⟩
    have hwx : wfB x = true := by
      simp [wfArr] at hw
      exact hw
    have hcx : costV x ≤ f := by
      have h2 : 1 + max (costV x) (costArr []) ≤ f + 1 := hf
      have h3 := le_max_left (costV x) (costArr [])
      omega
    rw [show dumpsArr [x] = dumpsV x from rfl]
    exact parseArrElems_last (parseVal_dumps x f (']' :: r) hwx hcx rfl)
      (skipWs_not_ws (by decide))
  | x :: y :: tt, _ =>
    obtain ⟨f, rfl⟩ : ∃ f, fuel = f + 1 := by
      have : 1 ≤ costArr (x :: y :: tt) := by simp [costArr]
      cases fuel
      · omega
      · exact ⟨_, rfl⟩
    have hw2 : wfB x = true ∧ wfArr (y :: tt) = true := by
      have h := hw
      rw [show wfArr (x :: y :: tt) = (wfB x && wfArr (y :: tt)) from rfl] at h
      simpa using h
    have h2 : 1 + max (costV x) (costArr (y :: tt)) ≤ f + 1 := hf
    have h3 := le_max_left (costV x) (costArr (y :: tt))
    have h4 := le_max_right (costV x) (costArr (y :: tt))
    rw [show dumpsArr (x :: y :: tt) = dumpsV x ++ (',' :: ' ' :: dumpsArr (y :: tt)) from rfl,
      List.append_assoc, List.cons_append, List.cons_append]
    refine parseArrElems_cons
      (parseVal_dumps x f (',' :: ' ' :: (dumpsArr (y :: tt) ++ ']' :: r)) hw2.1 (by omega) rfl)
      (skipWs_not_ws (by decide)) ?_
    rw [skipWs_space]
    obtain ⟨c, u, hcu, hg⟩ := @dumpsArr_head (y :: tt) (by simp) hw2.2
    rw [hcu, List.cons_append, goodHead_skipWs hg,
      show c :: (u ++ ']' :: r) = dumpsArr (y :: tt) ++ ']' :: r by rw [hcu]; rfl]
    exact parseArrElems_dumps (y :: tt) f r hw2.2 (by simp) (by omega)

theorem parseObjElems_dumps (kvs : List (PyKey × PyVal)) (fuel : Nat) (r : List Char)
    (hw : wfObj kvs = true) (hne : kvs ≠ []) (hf : costObj kvs ≤ fuel) :
    parseObjElems fuel (dumpsObj kvs ++ '}' :: r) = some (kvs, r) := by
  match kvs, hne with
  | [(k, v)], _ =>
    obtain ⟨f, rfl⟩ : ∃ f, fuel = f + 1 := by
      have : 1 ≤ costObj [(k, v)] := by simp [costObj]
      cases fuel
      · omega
      · exact ⟨_, rfl⟩
    obtain ⟨hks, hkm, hwv, hwo⟩ := wfObj_cons hw
    have hcv : costV v ≤ f := by
      have h2 : 1 + max (costV v) (costObj []) ≤ f + 1 := hf
      have h3 := le_max_left (costV v) (costObj [])
      omega
    cases k with
    | codes cs => simp [PyKey.isStr] at hks
    | s sk =>
      rw [show dumpsObj [(.s sk, v)] = dumpsStr sk ++ (':' :: ' ' :: dumpsV v) from rfl,
        show dumpsStr sk = '"' :: (escStr sk.data ++ ['"']) from rfl]
      simp only [List.cons_append, List.append_assoc, List.singleton_append]
      have hlen : sk.data.length
          < (escStr sk.data ++ '"' :: (':' :: ' ' :: (dumpsV v ++ '}' :: r))).length + 1 := by
        have h5 := length_le_escStr sk.data
        simp only [List.length_append, List.length_cons]
        omega
      have hval : parseVal f (skipWs (' ' :: (dumpsV v ++ '}' :: r))) = some (v, '}' :: r) := by
        rw [skipWs_space]
        obtain ⟨c, u, hcu, hg⟩ := dumpsV_head v hwv
        rw [hcu, List.cons_append, goodHead_skipWs hg,
          show c :: (u ++ '}' :: r) = dumpsV v ++ '}' :: r by rw [hcu]; rfl]
        exact parseVal_dumps v f ('}' :: r) hwv hcv rfl
      have h := parseObjElems_last (f := f)
        (parseStrBody_escStr sk.data _ (':' :: ' ' :: (dumpsV v ++ '}' :: r)) hlen)
        (skipWs_not_ws (by decide)) hval (skipWs_not_ws (by decide))
      rwa [keyVal_of_chars] at h
  | (k, v) :: e :: tt, _ =>
    obtain ⟨f, rfl⟩ : ∃ f, fuel = f + 1 := by
      have : 1 ≤ costObj ((k, v) :: e :: tt) := by simp [costObj]
      cases fuel
      · omega
      · exact ⟨_, rfl⟩
    obtain ⟨hks, hkm, hwv, hwo⟩ := wfObj_cons hw
    have h2 : 1 + max (costV v) (costObj (e :: tt)) ≤ f + 1 := hf
    have h3 := le_max_left (costV v) (costObj (e :: tt))
    have h4 := le_max_right (costV v) (costObj (e :: tt))
    have hv : parseVal f (skipWs (' ' :: (dumpsV v ++ ',' :: ' ' :: (dumpsObj (e :: tt) ++ '}' :: r))))
        = some (v, ',' :: ' ' :: (dumpsObj (e :: tt) ++ '}' :: r)) := by
      rw [skipWs_space]
      obtain ⟨c, u, hcu, hg⟩ := dumpsV_head v hwv
      rw [hcu, List.cons_append, goodHead_skipWs hg,
        show c :: (u ++ ',' :: ' ' :: (dumpsObj (e :: tt) ++ '}' :: r))
          = dumpsV v ++ ',' :: ' ' :: (dumpsObj (e :: tt) ++ '}' :: r) by rw [hcu]; rfl]
      exact parseVal_dumps v f (',' :: ' ' :: (dumpsObj (e :: tt) ++ '}' :: r)) hwv
        (by omega) rfl
    have hrec : parseObjElems f (skipWs (' ' :: (dumpsObj (e :: tt) ++ '}' :: r)))
        = some (e :: tt, r) := by
      rw [skipWs_space]
      obtain ⟨u, hcu⟩ := dumpsObj_head e tt
      rw [hcu, List.cons_append, skipWs_not_ws (by decide),
        show '"' :: (u ++ '}' :: r) = dumpsObj (e :: tt) ++ '}' :: r by rw [hcu]; rfl]
      exact parseObjElems_dumps (e :: tt) f r hwo (by simp) (by omega)
    cases k with
    | codes cs => simp [PyKey.isStr] at hks
    | s sk =>
      rw [show dumpsObj ((.s sk, v) :: e :: tt)
          = dumpsStr sk ++ (':' :: ' ' :: dumpsV v) ++ (',' :: ' ' :: dumpsObj (e :: tt)) from rfl,
        show dumpsStr sk = '"' :: (escStr sk.data ++ ['"']) from rfl]
      simp only [List.cons_append, List.append_assoc, List.singleton_append, List.nil_append]
      have hlen : sk.data.length < (escStr sk.data
          ++ '"' :: (':' :: ' ' :: (dumpsV v ++ ',' :: ' ' :: (dumpsObj (e :: tt) ++ '}' :: r)))).length
          + 1 := by
        have h5 := length_le_escStr sk.data
        simp only [List.length_append, List.length_cons]
        omega
      have h := parseObjElems_cons (f := f)
        (parseStrBody_escStr sk.data _
          (':' :: ' ' :: (dumpsV v ++ ',' :: ' ' :: (dumpsObj (e :: tt) ++ '}' :: r))) hlen)
        (skipWs_not_ws (by decide)) hv (skipWs_not_ws (by decide)) hrec
      rwa [keyVal_of_chars] at h

end

/-- The codec round-trip at the heart of the write/read path: `json.loads`
recovers exactly what `json.dumps` produced, for every well-formed value. -/
theorem loads_dumps {v : PyVal} (hw : wfB v = true) : loads (dumps v) = some v := by
  obtain ⟨c, t, hct, hg⟩ := dumpsV_head v hw
  have hskip : skipWs (dumpsV v) = dumpsV v := by
    rw [hct]
    exact goodHead_skipWs hg
  have hparse : parseVal ((dumpsV v).length + 1) (dumpsV v) = some (v, []) := by
    have h := parseVal_dumps v ((dumpsV v).length + 1) [] hw
      (le_trans (costV_le v hw) (by omega)) rfl
    rwa [List.append_nil] at h
  rw [show loads (dumps v)
      = (match parseVal ((dumps v).length + 1) (skipWs (dumps v).data) with
        | some (v2, rest) => if skipWs rest = [] then some v2 else none
        | none => none) from rfl,
    show (dumps v).data = dumpsV v from rfl,
    show (dumps v).length = (dumpsV v).length from rfl,
    hskip, hparse]
  rfl

/-- `decode` after `dumps`: reading back a written structured value yields
an equal value. -/
theorem decode_dumps {v : PyVal} (hw : wfB v = true) : decode (dumps v) = v := by
  rw [decode, loads_dumps hw]

/-- `decode` on text that is not structured syntax returns the raw text. -/
theorem decode_raw {s : String} (h : loads s = none) : decode s = .str s := by
  rw [decode, h]

/-- The serialization of a mapping or sequence starts with `{` or `[`:
plain text that does not is never mistaken for one. -/
theorem dumps_struct_startsStruct {v : PyVal} (h : v.isStruct = true) :
    startsStruct (dumps v) = true := by
  cases v <;> simp [PyVal.isStruct] at h <;> rfl

/-! ### Store-model lemmas -/

theorem alistGet_alistSet {α : Type} (m : List (String × α)) (k : String) (v : α) :
    alistGet (alistSet m k v) k = some v := by
  induction m with
  | nil => simp [alistSet, alistGet]
  | cons p t ih =>
    match p with
    | (k2, v2) =>
      by_cases h : k2 = k
      · simp [alistSet, alistGet, h]
      · simp [alistSet, alistGet, h, ih]

theorem mapM_decodeElem_none : ∀ (l : List String), (∃ x ∈ l, decodeElem x = none) →
    l.mapM decodeElem = none := by
  intro l
  induction l with
  | nil => intro h; simp at h
  | cons x t ih =>
    intro h
    rw [List.mapM_cons]
    rcases h with ⟨y, hy, hn⟩
    rcases List.mem_cons.mp hy with rfl | hmem
    · rw [hn]
      rfl
    · cases hx : decodeElem x
      · rfl
      · rw [ih ⟨y, hmem, hn⟩]
        rfl

/-! ## The claims -/

/-- **C2, counterexample.**  The plain text `"42"` is not the serialization
of a mapping or ordered sequence (it does not even begin with `{` or `[`),
yet writing it with `set` and reading it back with `get` yields the integer
`42`, not the text `"42"`: structured deserialization succeeds on scalar
JSON literals, so scalar passthrough fails for them. -/
theorem c2_counterexample :
    (RedisClient.get (RedisClient.set c0 st0 "k" (.str "42") none).2.1
        (RedisClient.set c0 st0 "k" (.str "42") none).2.2 "k").1 = some (.int 42)
    ∧ some (PyVal.int 42) ≠ some (PyVal.str "42")
    ∧ PyVal.isStruct (.str "42") = false
    ∧ startsStruct "42" = false := by
  refine ⟨rfl, ?_, rfl, rfl⟩
  intro h
  exact PyVal.noConfusion (Option.some.inj h)

/-- **C2, amended.**  For every plain text `T` on which structured
deserialization fails (`json.loads` raises, i.e. `loads T = none` — rather
than merely "T is not the serialization of a mapping or sequence"), writing
`T` with `set` and reading it back with `get` over a healthy store returns
`T` unchanged. -/
theorem c2_theorem (c : RedisClient) (st : Store) (key : String) (T : String)
    (hb : st.broken = false) (hT : loads T = none) :
    (RedisClient.get (RedisClient.set c st key (.str T) none).2.1
        (RedisClient.set c st key (.str T) none).2.2 key).1 = some (.str T) := by
  simp only [RedisClient.set, encodeArg, PyVal.isStruct, Bool.false_eq_true, if_false, wire,
    Store.cmdSet, hb, RedisClient.get, Store.cmdGet]
  simp [alistGet_alistSet, decode_raw hT]

theorem c2_witness :
    (RedisClient.get (RedisClient.set c0 st0 "k" (.str "hello") none).2.1
        (RedisClient.set c0 st0 "k" (.str "hello") none).2.2 "k").1 = some (.str "hello") :=
  c2_theorem c0 st0 "k" "hello" rfl rfl

/-- **C3, counterexample.**  Calling the cluster client's `set` with both
conditional flags set is not rejected: on an empty, healthy cluster store
it performs the write and returns `True`, behaving exactly like the call
with `nx` alone — the `xx` flag is silently ignored. -/
theorem c3_counterexample :
    (RedisClusterClient.set cc0 cst0 "k" (.str "v") none true true).1 = true
    ∧ RedisClusterClient.set cc0 cst0 "k" (.str "v") none true true
        = RedisClusterClient.set cc0 cst0 "k" (.str "v") none true false :=
  ⟨rfl, rfl⟩

/-- **C3, amended.**  Calling the cluster client's `set` with both
conditional flags set is not rejected as a usage error: the `if nx: …
elif xx: …` chain silently honors `nx` and ignores `xx`; the call behaves
identically to the same call with `xx` cleared. -/
theorem c3_theorem (c : RedisClusterClient) (st : CStore) (key : String) (v : PyVal)
    (expire : Option Nat) :
    RedisClusterClient.set c st key v expire true true
      = RedisClusterClient.set c st key v expire true false := rfl

/-- **C4.**  Round-trip of structured values: for every mapping or ordered
sequence `V` (well-formed: no Python `dict` holds a repeated key), writing
`V` with the single-node `set` and reading it back with `get` over a
healthy store yields `V`; likewise the cluster `get` over a store holding
exactly the written payload `dumps V`; and the codec itself satisfies
`decode (encode V) = V`. -/
theorem c4_theorem (c : RedisClient) (st : Store) (cc : RedisClusterClient) (cst : CStore)
    (key ckey : String) (V : PyVal) (hb : st.broken = false) (hs : V.isStruct = true)
    (hw : wfB V = true) (hcb : cst.broken = false) (hcc : cst.connectable = true)
    (hkv : alistGet cst.kv ckey = some (dumps V)) :
    (RedisClient.get (RedisClient.set c st key V none).2.1
        (RedisClient.set c st key V none).2.2 key).1 = some V
    ∧ (RedisClusterClient.get cc cst ckey).1 = some V
    ∧ decode (dumps V) = V := by
  refine ⟨?_, ?_, decode_dumps hw⟩
  · simp only [RedisClient.set, encodeArg, hs, if_true, wire, Store.cmdSet, hb,
      RedisClient.get, Store.cmdGet]
    simp [alistGet_alistSet, decode_dumps hw]
  · unfold RedisClusterClient.get RedisClusterClient.client
    cases hcl : cc._client with
    | some h => simp [CStore.cmdGet, hcb, hkv, decode_dumps hw]
    | none => simp [hcc, CStore.cmdGet, hcb, hkv, decode_dumps hw]

theorem c4_witness :
    (RedisClient.get
        (RedisClient.set c0 st0 "k" (.dict [(.s "a", .int 1), (.s "b", .list [.str "x", .null])]) none).2.1
        (RedisClient.set c0 st0 "k" (.dict [(.s "a", .int 1), (.s "b", .list [.str "x", .null])]) none).2.2
        "k").1 = some (.dict [(.s "a", .int 1), (.s "b", .list [.str "x", .null])])
    ∧ (RedisClusterClient.get cc0
        { cst0 with kv := [("k", dumps (.dict [(.s "a", .int 1), (.s "b", .list [.str "x", .null])]))] }
        "k").1 = some (.dict [(.s "a", .int 1), (.s "b", .list [.str "x", .null])])
    ∧ decode (dumps (.dict [(.s "a", .int 1), (.s "b", .list [.str "x", .null])]))
        = .dict [(.s "a", .int 1), (.s "b", .list [.str "x", .null])] :=
  c4_theorem c0 st0 cc0
    { cst0 with kv := [("k", dumps (.dict [(.s "a", .int 1), (.s "b", .list [.str "x", .null])]))] }
    "k" "k" (.dict [(.s "a", .int 1), (.s "b", .list [.str "x", .null])]) rfl rfl rfl rfl rfl rfl

/-- **C7.**  Failure degradation: when the transport raises during the
operation (every data command on a broken transport), `get` returns `None`,
`push_list` returns `0` and `add_to_set` returns `0`; by construction of
the model the exception never escapes these operations. -/
theorem c7_theorem (c : RedisClient) (st : Store) (key name1 name2 : String)
    (vs ws : List PyVal) (hb : st.broken = true) :
    (RedisClient.get c st key).1 = none
    ∧ (RedisClient.push_list c st name1 vs).1 = 0
    ∧ (RedisClient.add_to_set c st name2 ws).1 = 0 := by
  refine ⟨?_, ?_, ?_⟩
  · simp [RedisClient.get, Store.cmdGet, hb]
  · simp only [RedisClient.push_list]
    rcases hww : (vs.map encodeArg).mapM wire with _ | l
    · rfl
    · simp [Store.cmdRpush, hb]
  · simp only [RedisClient.add_to_set]
    rcases hww : (ws.map encodeArg).mapM wire with _ | l
    · rfl
    · simp [Store.cmdSadd, hb]

theorem c7_witness :
    (RedisClient.get c0 stBroken "k").1 = none
    ∧ (RedisClient.push_list c0 stBroken "l" [.str "a"]).1 = 0
    ∧ (RedisClient.add_to_set c0 stBroken "s" [.str "a"]).1 = 0 :=
  c7_theorem c0 stBroken "k" "l" "s" [.str "a"] [.str "a"] rfl

/-- **C8.**  A connection-construction failure on first access of the
cluster `client` accessor propagates to the caller (`Except.error`) rather
than degrading to a safe default; the failed handle is not cached — the
handle field of the client the caller retains is still unset — so a later
access against a connectable store constructs (and caches) a fresh handle
from the captured configuration. -/
theorem c8_theorem (c : RedisClusterClient) (st st2 : CStore)
    (hc : c._client = none) (hdown : st.connectable = false) (hup : st2.connectable = true) :
    RedisClusterClient.client c st = .error ()
    ∧ c._client = none
    ∧ RedisClusterClient.client c st2
        = .ok (mkCConn c, { c with _client := some (mkCConn c) }) := by
  refine ⟨?_, hc, ?_⟩
  · unfold RedisClusterClient.client
    rw [hc]
    simp [hdown]
  · unfold RedisClusterClient.client
    rw [hc]
    simp [hup]

theorem c8_witness :
    RedisClusterClient.client cc0 cstDown = .error ()
    ∧ cc0._client = none
    ∧ RedisClusterClient.client cc0 cst0
        = .ok (mkCConn cc0, { cc0 with _client := some (mkCConn cc0) }) :=
  c8_theorem cc0 cstDown cst0 rfl rfl rfl

/-- **C9.**  `close` is idempotent for both clients: the first call nulls
the handle field and requests one connection shutdown exactly when a live
handle existed; applying `close` to the already-closed state is a no-op —
`close (close s) = close s`. -/
theorem c9_theorem (c : RedisClient) (st : Store) (cc : RedisClusterClient) (cst : CStore) :
    (RedisClient.close (RedisClient.close c st).1 (RedisClient.close c st).2
        = RedisClient.close c st
      ∧ ((RedisClient.close c st).1)._client = none
      ∧ ((RedisClient.close c st).2).closeReqs
          = st.closeReqs + (if c._client.isSome then 1 else 0))
    ∧ (RedisClusterClient.close (RedisClusterClient.close cc cst).1
          (RedisClusterClient.close cc cst).2 = RedisClusterClient.close cc cst
      ∧ ((RedisClusterClient.close cc cst).1)._client = none
      ∧ ((RedisClusterClient.close cc cst).2).closeReqs
          = cst.closeReqs + (if cc._client.isSome then 1 else 0)) := by
  constructor
  · cases hc : c._client <;> simp [RedisClient.close, hc]
  · cases hc : cc._client <;> simp [RedisClusterClient.close, hc]

/-- **C1, counterexample.**  A stored list (or set) element that begins
with `{` but is not valid structured text makes the whole read return the
failure default (`[]` / empty set), not that element's raw text: the
elementwise decoding runs inside the same `try` as the transport call, and
its `JSONDecodeError` is caught by the outer handler. -/
theorem c1_counterexample :
    (RedisClient.get_list c0 { st0 with lists := [("recent", ["\x7boops"])] } "recent" 0 (-1)).1 = []
    ∧ ([] : List PyVal) ≠ [PyVal.str "\x7boops"]
    ∧ (RedisClient.get_set c0 { st0 with sets := [("s", ["\x7boops"])] } "s").1 = []
    ∧ startsStruct "\x7boops" = true
    ∧ loads "\x7boops" = none := by
  refine ⟨rfl, ?_, rfl, rfl, rfl⟩
  intro h
  exact List.noConfusion h

/-- **C1, amended.**  `get_list` and `get_set` decode each element read
back by the shape heuristic (text beginning with `{` or `[` is passed to
`json.loads`, anything else kept verbatim).  When every element decodes,
the operation returns the decoded elements (for `get_set`, provided no
decoded member is an unhashable mapping/sequence).  But a decoding failure
on any single element makes the surrounding operation return its failure
default (empty sequence / empty set) — it does not degrade to that
element's raw text; for `get_set`, even a successfully decoded
mapping/sequence member yields the failure default (it cannot be inserted
into a Python set). -/
theorem c1_theorem (c : RedisClient) (st : Store) (name : String) (start stop : Int)
    (hb : st.broken = false) :
    (∀ ds, (lrangeSlice ((alistGet st.lists name).getD []) start stop).mapM decodeElem = some ds →
        (RedisClient.get_list c st name start stop).1 = ds)
    ∧ ((∃ s ∈ lrangeSlice ((alistGet st.lists name).getD []) start stop, decodeElem s = none) →
        (RedisClient.get_list c st name start stop).1 = [])
    ∧ (∀ ds, ((alistGet st.sets name).getD []).mapM decodeElem = some ds →
        ds.any PyVal.isStruct = false → (RedisClient.get_set c st name).1 = ds)
    ∧ ((∃ s ∈ (alistGet st.sets name).getD [], decodeElem s = none) →
        (RedisClient.get_set c st name).1 = [])
    ∧ (∀ ds, ((alistGet st.sets name).getD []).mapM decodeElem = some ds →
        ds.any PyVal.isStruct = true → (RedisClient.get_set c st name).1 = []) := by
  refine ⟨?_, ?_, ?_, ?_, ?_⟩
  · intro ds h
    simp only [RedisClient.get_list, Store.cmdLrange, hb, Bool.false_eq_true, if_false]
    rw [h]
  · intro hex
    simp only [RedisClient.get_list, Store.cmdLrange, hb, Bool.false_eq_true, if_false]
    rw [mapM_decodeElem_none _ hex]
  · intro ds h hns
    simp only [RedisClient.get_set, Store.cmdSmembers, hb, Bool.false_eq_true, if_false]
    rw [h]
    simp [hns]
  · intro hex
    simp only [RedisClient.get_set, Store.cmdSmembers, hb, Bool.false_eq_true, if_false]
    rw [mapM_decodeElem_none _ hex]
  · intro ds h hsome
    simp only [RedisClient.get_set, Store.cmdSmembers, hb, Bool.false_eq_true, if_false]
    rw [h]
    simp [hsome]

theorem c1_witness :
    ((∀ ds, (lrangeSlice ((alistGet st0.lists "recent").getD []) 0 (-1)).mapM decodeElem
          = some ds → (RedisClient.get_list c0 st0 "recent" 0 (-1)).1 = ds)
      ∧ ((∃ s ∈ lrangeSlice ((alistGet st0.lists "recent").getD []) 0 (-1),
            decodeElem s = none) → (RedisClient.get_list c0 st0 "recent" 0 (-1)).1 = [])
      ∧ (∀ ds, ((alistGet st0.sets "recent").getD []).mapM decodeElem = some ds →
          ds.any PyVal.isStruct = false → (RedisClient.get_set c0 st0 "recent").1 = ds)
      ∧ ((∃ s ∈ (alistGet st0.sets "recent").getD [], decodeElem s = none) →
          (RedisClient.get_set c0 st0 "recent").1 = [])
      ∧ (∀ ds, ((alistGet st0.sets "recent").getD []).mapM decodeElem = some ds →
          ds.any PyVal.isStruct = true → (RedisClient.get_set c0 st0 "recent").1 = [])) :=
  c1_theorem c0 st0 "recent" 0 (-1) rfl

/-- **C5.**  In the cluster `set` with an expiry given, the `EXPIRE`
command is issued exactly when the write reported success (the issued-
command log grows by one entry if and only if the returned result is
`True`); a conditional write the store skipped — `nx` on a present key, or
`xx` on an absent key — leaves the store untouched, gets no expiry, and the
operation returns `False`. -/
theorem c5_theorem (c : RedisClusterClient) (st : CStore) (key : String) (v : PyVal)
    (n : Nat) (nx xx : Bool) (hn : n ≠ 0) :
    ((RedisClusterClient.set c st key v (some n) nx xx).2.2.expireLog
        = st.expireLog ++ (if (RedisClusterClient.set c st key v (some n) nx xx).1
            then [(key, n)] else []))
    ∧ (nx = true → (alistGet st.kv key).isSome = true →
        (RedisClusterClient.set c st key v (some n) nx xx).1 = false
        ∧ (RedisClusterClient.set c st key v (some n) nx xx).2.2 = st)
    ∧ (xx = true → nx = false → (alistGet st.kv key).isSome = false →
        (RedisClusterClient.set c st key v (some n) nx xx).1 = false
        ∧ (RedisClusterClient.set c st key v (some n) nx xx).2.2 = st) := by
  unfold RedisClusterClient.set
  rcases hacc : RedisClusterClient.client c st with e | ⟨cn, c2⟩
  · simp
  · rcases hww : wire (encodeArg v) with _ | w
    · simp [hww]
    · cases hbr : st.broken with
      | true =>
        cases nx <;> cases xx <;>
          simp [hww, CStore.cmdSetNX, CStore.cmdSetXX, CStore.cmdSet, hbr]
      | false =>
        cases nx with
        | true =>
          cases hp : (alistGet st.kv key).isSome with
          | true => simp [hww, CStore.cmdSetNX, hbr, hp, hn]
          | false => simp [hww, CStore.cmdSetNX, hbr, hp, hn, CStore.cmdExpire]
        | false =>
          cases xx with
          | true =>
            cases hp : (alistGet st.kv key).isSome with
            | true => simp [hww, CStore.cmdSetXX, hbr, hp, hn, CStore.cmdExpire]
            | false => simp [hww, CStore.cmdSetXX, hbr, hp, hn]
          | false => simp [hww, CStore.cmdSet, hbr, hn, CStore.cmdExpire]

theorem c5_witness :
    (((RedisClusterClient.set cc0 cst0 "k" (.str "v") (some 5) true false).2.2.expireLog
        = cst0.expireLog ++ (if (RedisClusterClient.set cc0 cst0 "k" (.str "v") (some 5)
            true false).1 then [("k", 5)] else []))
      ∧ (true = true → (alistGet cst0.kv "k").isSome = true →
          (RedisClusterClient.set cc0 cst0 "k" (.str "v") (some 5) true false).1 = false
          ∧ (RedisClusterClient.set cc0 cst0 "k" (.str "v") (some 5) true false).2.2 = cst0)
      ∧ (false = true → true = false → (alistGet cst0.kv "k").isSome = false →
          (RedisClusterClient.set cc0 cst0 "k" (.str "v") (some 5) true false).1 = false
          ∧ (RedisClusterClient.set cc0 cst0 "k" (.str "v") (some 5) true false).2.2 = cst0)) :=
  c5_theorem cc0 cst0 "k" (.str "v") 5 true false (by decide)

/-! ### Node lookup helpers for C6 -/

theorem findSlotNode_none (slot : Int) : ∀ (tbl : List (Nat × Nat × List NodeDesc)),
    (∀ q ∈ tbl, ¬((q.1 : Int) ≤ slot ∧ slot ≤ (q.2.1 : Int))) →
    findSlotNode slot tbl = [] := by
  intro tbl
  induction tbl with
  | nil => intro _; rfl
  | cons q t ih =>
    intro h
    match q with
    | (s, e, ns) =>
      rw [findSlotNode, if_neg (h (s, e, ns) (List.mem_cons_self _ _))]
      exact ih (fun q hq => h q (List.mem_cons_of_mem _ hq))

theorem findSlotNode_unique (slot : Int) : ∀ (tbl : List (Nat × Nat × List NodeDesc))
    (s e : Nat) (ns : List NodeDesc), (s, e, ns) ∈ tbl →
    ((s : Int) ≤ slot ∧ slot ≤ (e : Int)) →
    (∀ q ∈ tbl, ((q.1 : Int) ≤ slot ∧ slot ≤ (q.2.1 : Int)) → q = (s, e, ns)) →
    findSlotNode slot tbl = ns.headD [] := by
  intro tbl
  induction tbl with
  | nil => intro s e ns hmem; simp at hmem
  | cons q t ih =>
    intro s e ns hmem hin huniq
    match q with
    | (s2, e2, ns2) =>
      by_cases hq : (s2 : Int) ≤ slot ∧ slot ≤ (e2 : Int)
      · have heq := huniq (s2, e2, ns2) (List.mem_cons_self _ _) hq
        rw [findSlotNode, if_pos hq]
        rw [show ns2 = ns by injection heq with h1 h2; injection h2]
      · rw [findSlotNode, if_neg hq]
        refine ih s e ns ?_ hin (fun q hq2 hcont => huniq q (List.mem_cons_of_mem _ hq2) hcont)
        rcases List.mem_cons.mp hmem with heq | hmem2
        · exfalso
          apply hq
          rw [show s2 = s by injection heq.symm with h1 h2,
            show e2 = e by injection heq.symm with h1 h2; injection h2]
          exact hin
        · exact hmem2

theorem clientAcc_ok {c : RedisClusterClient} {st : CStore}
    (hok : (c._client.isSome || st.connectable) = true) :
    ∃ cn c2, RedisClusterClient.client c st = .ok (cn, c2) ∧ c2._client = some cn := by
  cases hc : c._client with
  | some h =>
    refine ⟨h, c, ?_, hc⟩
    unfold RedisClusterClient.client
    rw [hc]
  | none =>
    have hconn : st.connectable = true := by
      rw [hc] at hok
      simpa using hok
    refine ⟨mkCConn c, { c with _client := some (mkCConn c) }, ?_, rfl⟩
    unfold RedisClusterClient.client
    rw [hc]
    simp [hconn]

/-- **C6.**  Node lookup: when the slot computation fails (no cached handle
and an unconnectable store), `get_key_slot` returns the sentinel `-1` and
`get_node_for_key` returns the empty descriptor; when the accessor
succeeds, the slot table is fetched afresh and, if the key's slot falls
within exactly one range whose node list is non-empty, `get_node_for_key`
returns that range's first (primary) node descriptor; and when no range of
the table contains the slot, it returns the empty descriptor. -/
theorem c6_theorem (cd : RedisClusterClient) (std : CStore)
    (c : RedisClusterClient) (st : CStore) (key : String) (s e : Nat) (ns : List NodeDesc)
    (c2 : RedisClusterClient) (st2 : CStore)
    (hcd : cd._client = none) (hstd : std.connectable = false)
    (hok : (c._client.isSome || st.connectable) = true)
    (hsb : st.slotsBroken = false)
    (hmem : (s, e, ns) ∈ st.topology)
    (hin : s ≤ keySlot key ∧ keySlot key ≤ e)
    (huniq : ∀ q ∈ st.topology, (q.1 ≤ keySlot key ∧ keySlot key ≤ q.2.1) → q = (s, e, ns))
    (hok2 : (c2._client.isSome || st2.connectable) = true)
    (hnone : ∀ q ∈ st2.topology, ¬(q.1 ≤ keySlot key ∧ keySlot key ≤ q.2.1)) :
    ((cd.get_key_slot std key).1 = -1 ∧ (cd.get_node_for_key std key).1 = [])
    ∧ (c.get_node_for_key st key).1 = ns.headD []
    ∧ (c2.get_node_for_key st2 key).1 = [] := by
  have hslot : ∀ (cx : RedisClusterClient) (stx : CStore) (cnx : CConn) (cx2 : RedisClusterClient),
      RedisClusterClient.client cx stx = .ok (cnx, cx2) →
      cx.get_key_slot stx key = ((keySlot key : Int), cx2) := by
    intro cx stx cnx cx2 hacc
    unfold RedisClusterClient.get_key_slot
    rw [hacc]
  refine ⟨?_, ?_, ?_⟩
  · have hacc : RedisClusterClient.client cd std = .error () := by
      unfold RedisClusterClient.client
      rw [hcd]
      simp [hstd]
    constructor
    · unfold RedisClusterClient.get_key_slot
      rw [hacc]
    · unfold RedisClusterClient.get_node_for_key
      rw [show cd.get_key_slot std key = (-1, cd) by
        unfold RedisClusterClient.get_key_slot; rw [hacc]]
      rfl
  · obtain ⟨cn, cx2, hacc, hc2⟩ := clientAcc_ok hok
    unfold RedisClusterClient.get_node_for_key
    rw [hslot c st cn cx2 hacc]
    have hne : ¬(((keySlot key : Nat) : Int) = -1) := by omega
    simp only [hne, if_false]
    unfold RedisClusterClient.get_cluster_slots RedisClusterClient.client
    rw [hc2]
    simp only [hsb, Bool.false_eq_true, if_false]
    rw [findSlotNode_unique (keySlot key : Int) st.topology s e ns hmem
      (by constructor <;> omega)
      (fun q hq hcont => huniq q hq (by omega))]
  · obtain ⟨cn, cx2, hacc, hc2⟩ := clientAcc_ok hok2
    unfold RedisClusterClient.get_node_for_key
    rw [hslot c2 st2 cn cx2 hacc]
    have hne : ¬(((keySlot key : Nat) : Int) = -1) := by omega
    simp only [hne, if_false]
    unfold RedisClusterClient.get_cluster_slots RedisClusterClient.client
    rw [hc2]
    cases hsb2 : st2.slotsBroken with
    | true => simp [findSlotNode]
    | false =>
      simp only [Bool.false_eq_true, if_false]
      rw [findSlotNode_none (keySlot key : Int) st2.topology
        (fun q hq hcont => hnone q hq (by omega))]

theorem c6_witness :
    ((cc0.get_key_slot cstDown "a").1 = -1 ∧ (cc0.get_node_for_key cstDown "a").1 = [])
    ∧ (cc0.get_node_for_key cst0 "a").1 = [("host", "localhost"), ("port", "7000")]
    ∧ (cc0.get_node_for_key { cst0 with topology := [] } "a").1 = [] := by
  refine c6_theorem cc0 cstDown cc0 cst0 "a" 0 16383
    [[("host", "localhost"), ("port", "7000")]] cc0 { cst0 with topology := [] }
    rfl rfl rfl rfl (by simp [cst0]) (by constructor <;> decide)
    ?_ rfl (by simp)
  intro q hq hcont
  simp [cst0] at hq
  simp [hq]

/-- Every store operation hands back the client state produced by the
`client` accessor. -/
theorem runOp_client (op : SnOp) (c : RedisClient) (st : Store) :
    (runOp op c st).2.1 = (c.client).2 := by
  cases op <;>
    simp only [runOp, RedisClient.set, RedisClient.get, RedisClient.delete,
      RedisClient.existsKey, RedisClient.set_hash, RedisClient.get_hash,
      RedisClient.delete_hash, RedisClient.push_list, RedisClient.get_list,
      RedisClient.add_to_set, RedisClient.get_set, RedisClient.publish,
      RedisClient.subscribe] <;>
    (repeat' split) <;> rfl

/-- The result and the store effect of a store operation do not depend on
the client's cached handle. -/
theorem runOp_indep (op : SnOp) (c c2 : RedisClient) (st : Store) :
    (runOp op c st).1 = (runOp op c2 st).1
    ∧ (runOp op c st).2.2 = (runOp op c2 st).2.2 := by
  cases op <;>
    simp only [runOp, RedisClient.set, RedisClient.get, RedisClient.delete,
      RedisClient.existsKey, RedisClient.set_hash, RedisClient.get_hash,
      RedisClient.delete_hash, RedisClient.push_list, RedisClient.get_list,
      RedisClient.add_to_set, RedisClient.get_set, RedisClient.publish,
      RedisClient.subscribe] <;>
    constructor <;>
    (repeat' split) <;> simp_all

/-- After `close` the handle field is always null. -/
theorem close_client_none (c : RedisClient) (st : Store) :
    (c.close st).1._client = none := by
  rcases h : c._client with _ | cn <;> simp [RedisClient.close, h]

theorem cclose_client_none (c : RedisClusterClient) (st : CStore) :
    (RedisClusterClient.close c st).1._client = none := by
  rcases h : c._client with _ | cn <;> simp [RedisClusterClient.close, h]

/-- A cached cluster handle makes the accessor succeed with that handle
and an unchanged client. -/
theorem client_cached {c : RedisClusterClient} {h : CConn} (hc : c._client = some h)
    (st : CStore) : RedisClusterClient.client c st = .ok (h, c) := by
  unfold RedisClusterClient.client
  rw [hc]

/-- The client handed back by a successful accessor call carries the
handle it returned. -/
theorem clientAcc_cached {c c2 : RedisClusterClient} {cn : CConn} {st : CStore}
    (hacc : RedisClusterClient.client c st = .ok (cn, c2)) : c2._client = some cn := by
  unfold RedisClusterClient.client at hacc
  rcases h : c._client with _ | h2
  · rw [h] at hacc
    by_cases hconn : st.connectable
    · simp only [hconn, if_true] at hacc
      obtain ⟨h1, h2⟩ := Prod.mk.injEq .. ▸ (Except.ok.inj hacc)
      rw [← h2, ← h1]
    · simp [hconn] at hacc
  · rw [h] at hacc
    obtain ⟨h1, h2⟩ := Prod.mk.injEq .. ▸ (Except.ok.inj hacc)
    rw [← h2, h, h1]

/-- A successful accessor call preserves the handle invariant and the
configuration. -/
theorem clientAcc_props {c c2 : RedisClusterClient} {cn : CConn} {st : CStore}
    (hinv : InvC c) (hacc : RedisClusterClient.client c st = .ok (cn, c2)) :
    InvC c2 ∧ sameCConfig c c2 := by
  unfold RedisClusterClient.client at hacc
  rcases h : c._client with _ | h2
  · rw [h] at hacc
    by_cases hconn : st.connectable
    · simp only [hconn, if_true] at hacc
      obtain ⟨h1, h2⟩ := Prod.mk.injEq .. ▸ (Except.ok.inj hacc)
      rw [← h2]
      refine ⟨?_, rfl, rfl, rfl, rfl, rfl⟩
      intro x hx
      have hx2 : x = mkCConn c := by simpa using hx.symm
      rw [hx2]
      rfl
    · simp [hconn] at hacc
  · rw [h] at hacc
    obtain ⟨h1, h2⟩ := Prod.mk.injEq .. ▸ (Except.ok.inj hacc)
    rw [← h2]
    exact ⟨hinv, rfl, rfl, rfl, rfl, rfl⟩

/-- Every cluster store operation preserves the handle invariant and the
client's configuration. -/
theorem runCOp_keeps (op : COp) (c : RedisClusterClient) (st : CStore) (hinv : InvC c) :
    InvC (runCOp op c st).2.1 ∧ sameCConfig c (runCOp op c st).2.1 := by
  have hself : sameCConfig c c := ⟨rfl, rfl, rfl, rfl, rfl⟩
  cases op <;>
    simp only [runCOp, RedisClusterClient.set, RedisClusterClient.get,
      RedisClusterClient.delete, RedisClusterClient.existsKeys, RedisClusterClient.set_hash,
      RedisClusterClient.get_hash, RedisClusterClient.get_hash_field,
      RedisClusterClient.delete_hash, RedisClusterClient.push_list,
      RedisClusterClient.get_list, RedisClusterClient.add_to_set, RedisClusterClient.get_set,
      RedisClusterClient.publish, RedisClusterClient.subscribe,
      RedisClusterClient.get_cluster_nodes, RedisClusterClient.get_cluster_slots,
      RedisClusterClient.get_key_slot, RedisClusterClient.get_node_for_key] <;>
    rcases hacc : RedisClusterClient.client c st with e | ⟨cn, c2⟩ <;>
    first
      | exact ⟨hinv, hself⟩
      | (obtain ⟨hi2, hc2⟩ := clientAcc_props hinv hacc;
         (try rw [client_cached (clientAcc_cached hacc) st]);
         (repeat' split) <;>
           first
             | exact ⟨hi2, hc2⟩
             | exact ⟨hinv, hself⟩
             | simp_all)

/-- Against a store that accepts connection construction, the result and
the store effect of a cluster operation do not depend on the client's
cached handle. -/
theorem runCOp_conn (op : COp) (c c2 : RedisClusterClient) (st : CStore)
    (hconn : st.connectable = true) :
    (runCOp op c st).1 = (runCOp op c2 st).1
    ∧ (runCOp op c st).2.2 = (runCOp op c2 st).2.2 := by
  obtain ⟨cn1, d1, hacc1, hd1⟩ := clientAcc_ok
    (show (c._client.isSome || st.connectable) = true by simp [hconn])
  obtain ⟨cn2, d2, hacc2, hd2⟩ := clientAcc_ok
    (show (c2._client.isSome || st.connectable) = true by simp [hconn])
  cases op <;>
    simp only [runCOp, RedisClusterClient.set, RedisClusterClient.get,
      RedisClusterClient.delete, RedisClusterClient.existsKeys, RedisClusterClient.set_hash,
      RedisClusterClient.get_hash, RedisClusterClient.get_hash_field,
      RedisClusterClient.delete_hash, RedisClusterClient.push_list,
      RedisClusterClient.get_list, RedisClusterClient.add_to_set, RedisClusterClient.get_set,
      RedisClusterClient.publish, RedisClusterClient.subscribe,
      RedisClusterClient.get_cluster_nodes, RedisClusterClient.get_cluster_slots,
      RedisClusterClient.get_key_slot, RedisClusterClient.get_node_for_key,
      hacc1, hacc2] <;>
    (try rw [client_cached hd1 st, client_cached hd2 st]) <;>
    constructor <;>
    (repeat' split) <;>
    simp_all

/-- **C10, counterexample.**  A closed cluster client does not always
remain usable: against a store that no longer accepts connection
construction, a client holding a live cached handle reads a key
successfully, but after `close` the same read finds the handle field null,
the accessor's reconstruction fails, and the operation degrades to its
failure default — the operation fails merely because `close` was called
earlier. -/
theorem c10_counterexample :
    (RedisClusterClient.get ccLive cstKV "k").1 = some (.str "v")
    ∧ (RedisClusterClient.get ((RedisClusterClient.close ccLive cstKV).1)
        (RedisClusterClient.close ccLive cstKV).2 "k").1 = none
    ∧ some (PyVal.str "v") ≠ (none : Option PyVal) :=
  ⟨rfl, rfl, fun h => Option.noConfusion h⟩

/-- **C10, amended.**  After `close`, either client's handle field is
null.  For the single-node client the original claim holds in full: the
accessor on the closed client rebuilds a fresh handle from the
configuration captured at construction and caches it, every store
operation preserves the invariant that the handle field is null or a
handle built from the client's own configuration, leaves the
configuration unchanged, and produces the same result and store effect on
the closed client as on the original — no single-node operation fails
merely because `close` was called earlier.  For the cluster client the
invariant and configuration preservation hold for every operation, and
the accessor on the closed client rebuilds a handle from the captured
configuration — but only when construction succeeds (the store is
connectable); in that case every cluster operation on the closed client
gives the same result and store effect as on the original.  When
reconstruction fails, a cluster operation after `close` can degrade to
its failure default where the un-closed client's cached handle would have
succeeded (see the counterexample). -/
theorem c10_theorem (c : RedisClient) (st st2 : Store) (op : SnOp)
    (cc : RedisClusterClient) (cst cst2 : CStore) (cop : COp)
    (hinv : InvSN c) (hinvc : InvC cc) :
    ((c.close st).1._client = none
      ∧ ((c.close st).1.client).1 = mkConn c
      ∧ ((c.close st).1.client).2._client = some (mkConn c)
      ∧ InvSN (runOp op c st2).2.1
      ∧ sameConfig c (runOp op c st2).2.1
      ∧ (runOp op (c.close st).1 st2).1 = (runOp op c st2).1
      ∧ (runOp op (c.close st).1 st2).2.2 = (runOp op c st2).2.2)
    ∧ ((cc.close cst).1._client = none
      ∧ (cst2.connectable = true →
          RedisClusterClient.client (cc.close cst).1 cst2
            = .ok (mkCConn cc, { (cc.close cst).1 with _client := some (mkCConn cc) }))
      ∧ InvC (runCOp cop cc cst2).2.1
      ∧ sameCConfig cc (runCOp cop cc cst2).2.1
      ∧ (cst2.connectable = true →
          (runCOp cop ((cc.close cst).1) cst2).1 = (runCOp cop cc cst2).1
          ∧ (runCOp cop ((cc.close cst).1) cst2).2.2 = (runCOp cop cc cst2).2.2)) := by
  constructor
  · have hnil := close_client_none c st
    have hcfg : mkConn (c.close st).1 = mkConn c := by
      rcases h : c._client with _ | cn <;> simp [RedisClient.close, h, mkConn]
    refine ⟨hnil, ?_, ?_, ?_, ?_, (runOp_indep op (c.close st).1 c st2).1,
      (runOp_indep op (c.close st).1 c st2).2⟩
    · rw [show ((c.close st).1.client).1 = mkConn (c.close st).1 by
        unfold RedisClient.client; rw [hnil]]
      exact hcfg
    · rw [show ((c.close st).1.client).2._client = some (mkConn (c.close st).1) by
        unfold RedisClient.client; rw [hnil]]
      rw [hcfg]
    · rw [runOp_client]
      unfold RedisClient.client
      rcases h : c._client with _ | cn
      · intro x hx
        simp at hx
        rw [← hx]
        rfl
      · intro x hx
        have hx2 : x = cn := (Option.some.inj (h ▸ hx)).symm
        subst hx2
        exact hinv x h
    · rw [runOp_client]
      unfold RedisClient.client
      rcases h : c._client with _ | cn
      · exact ⟨rfl, rfl, rfl, rfl⟩
      · exact ⟨rfl, rfl, rfl, rfl⟩
  · have hnil := cclose_client_none cc cst
    have hcfg : mkCConn (cc.close cst).1 = mkCConn cc := by
      rcases h : cc._client with _ | cn <;> simp [RedisClusterClient.close, h, mkCConn]
    refine ⟨hnil, ?_, (runCOp_keeps cop cc cst2 hinvc).1, (runCOp_keeps cop cc cst2 hinvc).2,
      fun hconn => runCOp_conn cop (cc.close cst).1 cc cst2 hconn⟩
    intro hconn
    unfold RedisClusterClient.client
    rw [hnil]
    simp only [hconn, if_true]
    rw [hcfg]

theorem c10_witness :
    (InvSN c0 ∧ InvC cc0)
    ∧ (((c0.close st0).1._client = none
      ∧ ((c0.close st0).1.client).1 = mkConn c0
      ∧ ((c0.close st0).1.client).2._client = some (mkConn c0)
      ∧ InvSN (runOp (.get "k") c0 st0).2.1
      ∧ sameConfig c0 (runOp (.get "k") c0 st0).2.1
      ∧ (runOp (.get "k") (c0.close st0).1 st0).1 = (runOp (.get "k") c0 st0).1
      ∧ (runOp (.get "k") (c0.close st0).1 st0).2.2 = (runOp (.get "k") c0 st0).2.2)
    ∧ ((cc0.close cst0).1._client = none
      ∧ (cst0.connectable = true →
          RedisClusterClient.client (cc0.close cst0).1 cst0
            = .ok (mkCConn cc0, { (cc0.close cst0).1 with _client := some (mkCConn cc0) }))
      ∧ InvC (runCOp (.get "k") cc0 cst0).2.1
      ∧ sameCConfig cc0 (runCOp (.get "k") cc0 cst0).2.1
      ∧ (cst0.connectable = true →
          (runCOp (.get "k") ((cc0.close cst0).1) cst0).1 = (runCOp (.get "k") cc0 cst0).1
          ∧ (runCOp (.get "k") ((cc0.close cst0).1) cst0).2.2
            = (runCOp (.get "k") cc0 cst0).2.2))) :=
  ⟨⟨by intro x hx; simp [c0] at hx, by intro x hx; simp [cc0] at hx⟩,
   c10_theorem c0 st0 st0 (.get "k") cc0 cst0 cst0 (.get "k")
     (by intro x hx; simp [c0] at hx) (by intro x hx; simp [cc0] at hx)⟩

end FlaskVue
